import Mathlib

/-!
Verification development for the mania download engine
(`src/mania/mania.py`).

The Python source is shallowly embedded as pure Lean functions:

* Python strings are `List Char` (`Str`); character classification and
  case mapping (`str.isalnum`, `str.lower`) are modelled by `pyIsAlnum`
  and `pyLowerChar`, which follow the Unicode data exactly on every code
  point a theorem below evaluates: all of ASCII, U+0130 (LATIN CAPITAL
  LETTER I WITH DOT ABOVE, whose full lowercase mapping is the
  two-character sequence "i" U+0307) and U+0307 (COMBINING DOT ABOVE,
  not alphanumeric).  Lowercasing is one-character-to-many, as in
  Python.
* The filesystem is a set of file paths, `FS := Str → Bool`; the only
  file operations the engine performs (create the temporary file,
  delete it, rename it to the final path) are explicit updates.
* Effectful collaborator calls (hierarchy listing fetch, media-locator
  request, re-authentication, payload transfer, cover fetch, metadata
  embedding) are recorded in an event trace, and their outcomes are
  supplied by oracles: `Client` for the Media Source and `World` for the
  transport / embedder outcomes of one `download_track` run.
* Python exceptions are `Except PyErr`; `download_track` catches exactly
  the exceptions the source catches (HTTP errors from `get_media`, and
  `metadata.InvalidFileError`) and lets every other error escape as a
  `DResult.fatal` outcome.

Logging (`log`, `tqdm`) and the constants `INDENT` /
`DOWNLOAD_CHUNK_SIZE` have no effect on any modelled observable and are
not represented.
-/

namespace Mania

/-- Python strings, modelled as lists of characters. -/
abbrev Str := List Char

/-- The filesystem, as the set of paths at which a file exists. -/
abbrev FS := Str → Bool

/-- Update the filesystem: `b = true` creates the file at `p`,
`b = false` removes it. -/
def setFile (fs : FS) (p : Str) (b : Bool) : FS :=
  fun q => if q = p then b else fs q

/-- The configuration keys of `config` that the modelled code reads
(`output-directory`, `nice-format`, `full-structure`, `skip-metadata`,
`quiet`).  `quiet` only gates logging, which is not modelled, but is
kept for completeness. -/
structure Config where
  outputDirectory : Str
  niceFormat : Bool
  fullStructure : Bool
  skipMetadata : Bool
  quiet : Bool
deriving DecidableEq, Repr

/-- Model of `models.Artist`, restricted to the fields `mania.py` reads. -/
structure Artist where
  id : Nat
  name : Str
deriving DecidableEq, Repr

/-- Model of `models.Album`, restricted to the fields `mania.py` reads. -/
structure Album where
  id : Nat
  name : Str
  year : Option Nat
  cover_url : Option Str
  artists : List Artist
deriving DecidableEq, Repr

/-- Model of `models.Track`, restricted to the fields `mania.py` reads. -/
structure Track where
  id : Nat
  name : Str
  disc_number : Nat
  track_number : Nat
  extension : Str
  album : Album
  artists : List Artist
deriving DecidableEq, Repr

/-- Python's `str.split(sep)` (splitting on a single character), with an
accumulator for the current chunk.  `"".split(sep)` gives `[""]`. -/
def splitOnAux (sep : Char) : List Char → List Char → List (List Char)
  | [], acc => [acc.reverse]
  | c :: cs, acc =>
    if c = sep then acc.reverse :: splitOnAux sep cs []
    else splitOnAux sep cs (c :: acc)

/-- Python's `string.split(sep)` for a one-character separator. -/
def splitOn (sep : Char) (s : Str) : List Str :=
  splitOnAux sep s []

/-- Python's `"-".join(words)`. -/
def joinHyphen : List Str → Str
  | [] => []
  | [w] => w
  | w :: ws => w ++ '-' :: joinHyphen ws

/-- Python's per-character `str.isalnum`.  Unicode-exact on every code
point a theorem below evaluates: on ASCII (where the alphanumerics are
exactly [0-9A-Za-z]), on U+0130 (LATIN CAPITAL LETTER I WITH DOT ABOVE,
code point 304, a letter, hence alphanumeric) and on U+0307 (COMBINING
DOT ABOVE, code point 775, a combining mark, not alphanumeric).  Other
non-ASCII alphanumerics are not represented (the function returns false
there); the nice-format theorems below are stated over ASCII strings or
at the U+0130 counterexample, where this model agrees with Python. -/
def pyIsAlnum (c : Char) : Bool :=
  decide ((65 ≤ c.toNat ∧ c.toNat ≤ 90) ∨ (97 ≤ c.toNat ∧ c.toNat ≤ 122) ∨
    (48 ≤ c.toNat ∧ c.toNat ≤ 57) ∨ c.toNat = 304)

/-- Python's per-character `str.lower`: the full Unicode lowercase
mapping, taking one character to a possibly longer string.
Unicode-exact on every code point a theorem below evaluates: on ASCII
(A-Z map to a-z, every other ASCII character is fixed), on U+0130
(which lowers to "i" followed by U+0307, per SpecialCasing.txt) and on
U+0307 (which has no lowercase mapping).  Other non-ASCII code points
are left fixed, which is exact for every character without a lowercase
mapping; no theorem below evaluates the model elsewhere. -/
def pyLowerChar (c : Char) : Str :=
  if c.toNat = 304 then ['i', Char.ofNat 775]
  else if 65 ≤ c.toNat ∧ c.toNat ≤ 90 then [Char.ofNat (c.toNat + 32)]
  else [c]

/-- Python's `str.lower` on a whole string: the concatenation of the
per-character full lowercase mappings. -/
def pyLower (s : Str) : Str :=
  s.flatMap pyLowerChar

/-- The character filter of the nice-format branch of `sanitize`:
`c.isalnum() or c in (" ", "-")`. -/
def keepChar (c : Char) : Bool :=
  pyIsAlnum c || c = ' ' || c = '-'

/-- The `.replace(" ", "-")` step of `sanitize`, per character. -/
def hyphenate (c : Char) : Char :=
  if c = ' ' then '-' else c

/-- Python `sanitize` (mania.py lines 30-36).  Plain mode strips the path
separator; nice mode keeps alphanumerics, spaces and hyphens, replaces
spaces by hyphens, drops empty hyphen-separated segments, and applies
`str.lower` to the joined result. -/
def sanitize (config : Config) (s : Str) : Str :=
  if !config.niceFormat then
    s.filter (fun c => !(c = '/'))
  else
    let alphanumeric := s.filter keepChar
    let hyphenated := alphanumeric.map hyphenate
    pyLower (joinHyphen ((splitOn '-' hyphenated).filter (fun w => !w.isEmpty)))

/-- Python exceptions that can escape the modelled code. -/
inductive PyErr where
  | indexError
  | valueError
  | keyError
  | httpError (status : Nat) (subStatus : Option Nat)
  | streamHttpError
  | coverHttpError
  | decryptError
  | invalidFile
deriving DecidableEq, Repr

/-- Observable collaborator calls, in the order they are performed. -/
inductive Event where
  | albumTracksFetch (albumId : Nat)
  | getMedia
  | authenticate
  | makedirs
  | payloadRequest
  | writeTemp
  | decrypt
  | coverFetch
  | embed
  | removeTemp
  | rename
deriving DecidableEq, Repr

/-- Outcome of one `client.get_media(track)` call. -/
inductive MediaResult where
  | ok (hasDecryptor : Bool)
  | err (status : Nat) (subStatus : Option Nat)
deriving DecidableEq, Repr

/-- The Media Source collaborator.  `getMedia n` is the outcome of the
`n`-th `get_media` attempt within one `download_track` call (the source
makes at most two).  `authenticate` always succeeds, as `download_track`
does not catch its errors specially. -/
structure Client where
  albumTracks : Album → List Track
  getMedia : Nat → MediaResult

/-- Oracle for the ambient effects of one `download_track` run: whether
the payload-stream request, the decryption step and the cover fetch
succeed, and whether the embedder rejects the file as invalid. -/
structure World where
  streamOk : Bool
  decryptOk : Bool
  coverOk : Bool
  embedInvalid : Bool
deriving DecidableEq, Repr

/-- Result of one `download_track` call. -/
inductive DResult where
  | skippedExists
  | skippedNotAvailable
  | skippedInvalidFile
  | completed
  | fatal (e : PyErr)
deriving DecidableEq, Repr

/-- Python's `max` over a list of naturals; raises `ValueError` on an
empty list. -/
def pyMax : List Nat → Except PyErr Nat
  | [] => Except.error PyErr.valueError
  | x :: xs => Except.ok (xs.foldl max x)

/-- Decimal digits of `n`, most significant first, with fuel for
structural recursion (`fuel ≥ n` suffices); empty for `n = 0`. -/
def natStrAux : Nat → Nat → Str
  | 0, _ => []
  | fuel + 1, n =>
    if n = 0 then [] else natStrAux fuel (n / 10) ++ [Nat.digitChar (n % 10)]

/-- Python's `str(n)` for a natural number. -/
def natStr (n : Nat) : Str :=
  if n = 0 then ['0'] else natStrAux n n

/-- Python's `s.zfill(w)`: left-pad with zeros to width `w`. -/
def zfill (w : Nat) (s : Str) : Str :=
  List.replicate (w - s.length) '0' ++ s

/-- Python `str(n).zfill(len(str(maxN)))`: the numeral of `n` padded to the
width of the numeral of `maxN`, as used for disc and track numbers. -/
def paddedNumeral (n maxN : Nat) : Str :=
  zfill (natStr maxN).length (natStr n)

/-- Python's `siblings or client.get_album_tracks(track.album)`
(mania.py line 122): a `None` or empty sibling list triggers one
hierarchy-listing fetch. -/
def siblingsOrFetch (client : Client) (album : Album) :
    Option (List Track) → List Track × List Event
  | some l =>
    if l.isEmpty then (client.albumTracks album, [Event.albumTracksFetch album.id])
    else (l, [])
  | none => (client.albumTracks album, [Event.albumTracksFetch album.id])

/-- The four path fragments `get_track_path` assembles before joining. -/
structure Parts where
  artist : Str
  album : Str
  disc : Str
  file : Str
deriving DecidableEq, Repr

/-- Lines 123-130 of `get_track_path`: the album / disc / file
fragments computed from the resolved sibling list (`ValueError` when it
is empty, from `max([])`). -/
def albumFragments (config : Config) (track : Track) (sibs : List Track)
    (artist_path : Str) : Except PyErr Parts :=
  match pyMax (sibs.map (fun s => s.disc_number)) with
  | Except.error e => Except.error e
  | Except.ok maximum_disc_number =>
    match pyMax (sibs.map (fun s => s.track_number)) with
    | Except.error e => Except.error e
    | Except.ok maximum_track_number =>
      let album_path := sanitize config track.album.name
      let disc_path :=
        if 1 < maximum_disc_number then
          sanitize config
            (("Disc ").data ++ paddedNumeral track.disc_number maximum_disc_number)
        else []
      let file_path :=
        sanitize config
          (paddedNumeral track.track_number maximum_track_number ++ ' ' :: track.name)
      Except.ok ⟨artist_path, album_path, disc_path, file_path⟩

/-- Lines 121-132 of `get_track_path`: the album / disc / file
fragments, given the already-computed artist fragment. -/
def get_track_path_body (client : Client) (config : Config) (track : Track)
    (siblings : Option (List Track)) (include_album : Bool) (artist_path : Str) :
    List Event × Except PyErr Parts :=
  if include_album || config.fullStructure then
    let fetched := siblingsOrFetch client track.album siblings
    (fetched.2, albumFragments config track fetched.1 artist_path)
  else ([], Except.ok ⟨artist_path, [], [], sanitize config track.name⟩)

/-- Python `get_track_path` (mania.py lines 106-136), as the list of emitted
events together with either the computed path fragments or the Python
exception that escapes (`IndexError` from `track.album.artists[0]` on an
album without artists, `ValueError` from `max([])` on an empty sibling
list). -/
def get_track_path (client : Client) (config : Config) (track : Track)
    (siblings : Option (List Track)) (include_artist include_album : Bool) :
    List Event × Except PyErr Parts :=
  if include_artist || config.fullStructure then
    match track.album.artists with
    | [] => ([], Except.error PyErr.indexError)
    | a :: _ =>
      get_track_path_body client config track siblings include_album (sanitize config a.name)
  else
    get_track_path_body client config track siblings include_album []

/-- One step of Python's `os.path.join`: join an accumulated path with
one more component. -/
def joinTwo (a b : Str) : Str :=
  if b.head? = some '/' then b
  else if a = [] ∨ a.getLast? = some '/' then a ++ b
  else a ++ '/' :: b

/-- Python's `os.path.join` on a non-empty argument list. -/
def osPathJoin : List Str → Str
  | [] => []
  | p :: ps => ps.foldl joinTwo p

/-- Modelled from the spec: `constants.TEMPORARY_EXTENSION` (the
"in-progress" marker of the temporary double suffix) lives in
`constants.py`, which is not under `src/`; the spec only requires it to
be a reserved marker making the temporary name distinct from every
final name, which holds for any value of this constant. -/
def TEMPORARY_EXTENSION : Str :=
  ("part").data

/-- The joined `track_path` of `download_track` (line 148 / 134-136). -/
def trackPathOf (config : Config) (parts : Parts) : Str :=
  osPathJoin [config.outputDirectory, parts.artist, parts.album, parts.disc, parts.file]

/-- Python `final_path = track_path + "." + track.extension` (line 157). -/
def finalPathOf (config : Config) (parts : Parts) (ext : Str) : Str :=
  trackPathOf config parts ++ '.' :: ext

/-- Python `temporary_path`, the final path with the reserved
in-progress marker spliced before the extension (line 156). -/
def tempPathOf (config : Config) (parts : Parts) (ext : Str) : Str :=
  trackPathOf config parts ++ '.' :: (TEMPORARY_EXTENSION ++ '.' :: ext)

/-- Lines 165-177 of `download_track`: the media-locator request with
its single re-authenticate-and-retry recovery for HTTP 429.  The result
is the decryptor flag or the HTTP (status, subStatus) pair that reaches
the outer handler. -/
def get_media_with_retry (client : Client) : List Event × Except (Nat × Option Nat) Bool :=
  match client.getMedia 0 with
  | MediaResult.ok d => ([Event.getMedia], Except.ok d)
  | MediaResult.err status subStatus =>
    if status = 429 then
      match client.getMedia 1 with
      | MediaResult.ok d =>
        ([Event.getMedia, Event.authenticate, Event.getMedia], Except.ok d)
      | MediaResult.err s2 ss2 =>
        ([Event.getMedia, Event.authenticate, Event.getMedia], Except.error (s2, ss2))
    else ([Event.getMedia], Except.error (status, subStatus))

/-- The format dispatch of `resolve_metadata` (lines 101-103): only the
`"mp4"` and `"flac"` keys exist, any other extension raises `KeyError`;
the chosen embedder raises `InvalidFileError` when the oracle says the
file is not a valid container. -/
def embedStep (track : Track) (world : World) (evs : List Event) :
    List Event × Except PyErr Unit :=
  if track.extension = ("mp4").data ∨ track.extension = ("flac").data then
    (evs ++ [Event.embed],
      if world.embedInvalid then Except.error PyErr.invalidFile else Except.ok ())
  else (evs, Except.error PyErr.keyError)

/-- Python `resolve_metadata` (lines 88-103): fetch the cover when the album
has a cover locator (an HTTP failure there escapes), then dispatch to
the format-specific embedder. -/
def resolve_metadata (config : Config) (track : Track) (world : World) :
    List Event × Except PyErr Unit :=
  match track.album.cover_url with
  | some _ =>
    if world.coverOk then embedStep track world [Event.coverFetch]
    else ([Event.coverFetch], Except.error PyErr.coverHttpError)
  | none => embedStep track world []

/-- Lines 217-228 of `download_track`: the metadata step (unless
`skip-metadata`), with `InvalidFileError` caught as delete-and-skip,
followed by the finalizing rename.  `fs` here already contains the
written temporary file. -/
def metaPhase (config : Config) (track : Track) (world : World)
    (temporary_path final_path : Str) (fs : FS) (evs : List Event) :
    DResult × FS × List Event :=
  if config.skipMetadata then
    (DResult.completed, setFile (setFile fs temporary_path false) final_path true,
      evs ++ [Event.rename])
  else
    let rm := resolve_metadata config track world
    match rm.2 with
    | Except.error PyErr.invalidFile =>
      (DResult.skippedInvalidFile, setFile fs temporary_path false,
        evs ++ rm.1 ++ [Event.removeTemp])
    | Except.error e => (DResult.fatal e, fs, evs ++ rm.1)
    | Except.ok _ =>
      (DResult.completed, setFile (setFile fs temporary_path false) final_path true,
        evs ++ rm.1 ++ [Event.rename])

/-- Lines 190-228 of `download_track`: create directories, stream the
payload to the temporary path, decrypt in place when a decryptor is
present, then run the metadata step and the rename. -/
def finishPhase (config : Config) (track : Track) (world : World) (hasDecryptor : Bool)
    (temporary_path final_path : Str) (fs : FS) : DResult × FS × List Event :=
  if world.streamOk then
    let fs1 := setFile fs temporary_path true
    if hasDecryptor then
      if world.decryptOk then
        metaPhase config track world temporary_path final_path fs1
          [Event.makedirs, Event.payloadRequest, Event.writeTemp, Event.decrypt]
      else
        (DResult.fatal PyErr.decryptError, fs1,
          [Event.makedirs, Event.payloadRequest, Event.writeTemp, Event.decrypt])
    else
      metaPhase config track world temporary_path final_path fs1
        [Event.makedirs, Event.payloadRequest, Event.writeTemp]
  else (DResult.fatal PyErr.streamHttpError, fs, [Event.makedirs, Event.payloadRequest])

/-- Lines 179-228 of `download_track`, after the media request: the
outer HTTP-error handler (skip on the 401/4005 not-entitled pair,
re-raise anything else) and, on success, the streaming / decryption /
metadata / rename pipeline. -/
def download_track_media (config : Config) (track : Track) (world : World) (fs : FS)
    (temporary_path final_path : Str) (ev0 : List Event) :
    List Event × Except (Nat × Option Nat) Bool → DResult × FS × List Event
  | (evm, Except.error (s, ss)) =>
    if s = 401 ∧ ss = some 4005 then (DResult.skippedNotAvailable, fs, ev0 ++ evm)
    else (DResult.fatal (PyErr.httpError s ss), fs, ev0 ++ evm)
  | (evm, Except.ok hasDecryptor) =>
    let fin := finishPhase config track world hasDecryptor temporary_path final_path fs
    (fin.1, fin.2.1, ev0 ++ evm ++ fin.2.2)

/-- Lines 156-228 of `download_track`, given the outcome of
`get_track_path`: compute the temporary and final names, short-circuit
when the final path exists, otherwise request the media locator and
continue with `download_track_media`. -/
def download_track_after (client : Client) (config : Config) (track : Track)
    (world : World) (fs : FS) :
    List Event × Except PyErr Parts → DResult × FS × List Event
  | (ev0, Except.error e) => (DResult.fatal e, fs, ev0)
  | (ev0, Except.ok parts) =>
    let temporary_path := tempPathOf config parts track.extension
    let final_path := finalPathOf config parts track.extension
    if fs final_path then (DResult.skippedExists, fs, ev0)
    else
      download_track_media config track world fs temporary_path final_path ev0
        (get_media_with_retry client)

/-- Python `download_track` (mania.py lines 139-228): path resolution, the
existence short-circuit, the media request with its bounded retry and
the not-entitled (401/4005) skip, then streaming, decryption, metadata
and finalization.  Returns the outcome, the final filesystem, and the
trace of collaborator calls. -/
def download_track (client : Client) (config : Config) (track : Track)
    (siblings : Option (List Track)) (include_artist include_album : Bool)
    (world : World) (fs : FS) : DResult × FS × List Event :=
  download_track_after client config track world fs
    (get_track_path client config track siblings include_artist include_album)

/-- Record of one `download_track` invocation made by `download_album`:
the track, the sibling list passed, the inclusion flags, and the 1-based
position counter used in the progress log line. -/
structure Call where
  track : Track
  siblings : Option (List Track)
  include_artist : Bool
  include_album : Bool
  index : Nat
deriving Repr

/-- The `for index, track in enumerate(tracks, 1)` loop of
`download_album`: each track is handed to `download_track` with the full
fetched list as siblings and `include_album=True`; a fatal outcome
(an uncaught exception) aborts the loop. -/
def albumLoop (client : Client) (config : Config) (world : World) (include_artist : Bool)
    (tracks : List Track) :
    List (Nat × Track) → FS → FS × List Event × List Call × Option PyErr
  | [], fs => (fs, [], [], none)
  | (i, t) :: rest, fs =>
    let step := download_track client config t (some tracks) include_artist true world fs
    let call : Call := ⟨t, some tracks, include_artist, true, i⟩
    match step.1 with
    | DResult.fatal e => (step.2.1, step.2.2, [call], some e)
    | _ =>
      let next := albumLoop client config world include_artist tracks rest step.2.1
      (next.1, step.2.2 ++ next.2.1, call :: next.2.2.1, next.2.2.2)

/-- Python `download_album` (mania.py lines 243-265): fetch the track list
once, then run the loop.  Returns the filesystem, the event trace, the
invocation records, and the fatal error (if one aborted the loop). -/
def download_album (client : Client) (config : Config) (album : Album)
    (include_artist : Bool) (world : World) (fs : FS) :
    FS × List Event × List Call × Option PyErr :=
  let tracks := client.albumTracks album
  let run := albumLoop client config world include_artist tracks (List.enumFrom 1 tracks) fs
  (run.1, Event.albumTracksFetch album.id :: run.2.1, run.2.2.1, run.2.2.2)

/-- Concrete artist for witnesses. -/
def exArtist : Artist := ⟨1, ['a']⟩

/-- Concrete album (no cover) for witnesses. -/
def exAlbum : Album := ⟨2, ['b'], none, none, [exArtist]⟩

/-- Concrete single-disc track for witnesses. -/
def exTrack : Track := ⟨3, ['t'], 1, 1, ("mp4").data, exAlbum, [exArtist]⟩

/-- Concrete plain-mode configuration (no full structure). -/
def exConfig : Config := ⟨['m'], false, false, false, true⟩

/-- Concrete plain-mode configuration with `full-structure` on. -/
def exConfigFull : Config := ⟨['m'], false, true, false, true⟩

/-- Client whose media requests always succeed without a decryptor. -/
def exClientOk : Client := ⟨fun _ => [exTrack], fun _ => MediaResult.ok false⟩

/-- Client whose media requests always fail with HTTP 429. -/
def exClient429 : Client := ⟨fun _ => [exTrack], fun _ => MediaResult.err 429 none⟩

/-- Client whose media requests always fail with the 401/4005
not-entitled signal. -/
def exClient4005 : Client := ⟨fun _ => [exTrack], fun _ => MediaResult.err 401 (some 4005)⟩

/-- World in which every ambient effect succeeds. -/
def exWorld : World := ⟨true, true, true, false⟩

/-- World in which the embedder reports an invalid file. -/
def exWorldInvalid : World := ⟨true, true, true, true⟩

/-- The final path `download_track` computes for `exTrack` under
`exConfig` with no album or artist segment. -/
def exFinalPath : Str := ("m/t.mp4").data

/-- The final path `download_track` computes for `exTrack` under
`exConfigFull`. -/
def exFinalPathFull : Str := ("m/a/b/1 t.mp4").data

/-- Filesystem already containing `exFinalPath`. -/
def exFs : FS := fun q => decide (q = exFinalPath)

/-- Filesystem already containing `exFinalPathFull`. -/
def exFsFull : FS := fun q => decide (q = exFinalPathFull)

/-- The empty filesystem. -/
def exFsEmpty : FS := fun _ => false

/-- World whose payload-stream request fails. -/
def exWorldStreamFail : World := ⟨false, true, true, false⟩

/-- Concrete plain-mode configuration with `skip-metadata` on. -/
def exConfigSkipMeta : Config := ⟨['m'], false, false, true, true⟩

/-- Concrete configuration with `nice-format` on. -/
def exConfigNice : Config := ⟨['m'], true, false, false, true⟩

/-- Sibling track on disc 1 with track number 7, for padding witnesses. -/
def exTrack7 : Track := ⟨7, ['x'], 1, 7, ("mp4").data, exAlbum, [exArtist]⟩

/-- Sibling track on disc 2 with track number 12, for padding witnesses. -/
def exTrack12 : Track := ⟨8, ['y'], 2, 12, ("mp4").data, exAlbum, [exArtist]⟩

/-- A two-disc sibling list with track numbers up to 12. -/
def exSibs : List Track := [exTrack7, exTrack12]

/-- Album with an empty artist list. -/
def exAlbumNoArtists : Album := ⟨4, ['c'], none, none, []⟩

/-- Track owned by an album with no artists. -/
def exTrackNoArtists : Track := ⟨5, ['u'], 1, 1, ("mp4").data, exAlbumNoArtists, []⟩


theorem toNat_ofNat_valid (n : Nat) (h : n.isValidChar) : (Char.ofNat n).toNat = n := by
  simp only [Char.ofNat, dif_pos h, Char.ofNatAux, Char.toNat, UInt32.toNat]
  simp [BitVec.toNat_ofNatLt]

theorem hyphenate_of_ne_space (c : Char) (h : c ≠ ' ') : hyphenate c = c := if_neg h

theorem filter_eq_self_of {α : Type} {p : α → Bool} {l : List α}
    (h : ∀ a ∈ l, p a = true) : l.filter p = l :=
  List.filter_eq_self.mpr h

theorem map_eq_self_of {α : Type} {f : α → α} {l : List α} (h : ∀ a ∈ l, f a = a) :
    l.map f = l := by
  induction l with
  | nil => rfl
  | cons a l ih =>
    simp only [List.map_cons]
    rw [h a (by simp), ih (fun b hb => h b (by simp [hb]))]

theorem splitOnAux_sep (sep : Char) (cs acc : List Char) :
    splitOnAux sep (sep :: cs) acc = acc.reverse :: splitOnAux sep cs [] := by
  simp [splitOnAux]

theorem splitOnAux_append_no_sep (sep : Char) :
    ∀ (w rest acc : List Char), (∀ c ∈ w, c ≠ sep) →
      splitOnAux sep (w ++ rest) acc = splitOnAux sep rest (w.reverse ++ acc)
  | [], rest, acc, _ => by simp
  | c :: w, rest, acc, h => by
    have hc : c ≠ sep := h c (by simp)
    have h2 : (c :: w).reverse ++ acc = w.reverse ++ (c :: acc) := by
      rw [List.reverse_cons, List.append_assoc]
      rfl
    rw [h2, List.cons_append]
    simp only [splitOnAux]
    rw [if_neg hc]
    exact splitOnAux_append_no_sep sep w rest (c :: acc) (fun d hd => h d (by simp [hd]))

theorem mem_splitOnAux (sep : Char) :
    ∀ (l acc w : List Char), w ∈ splitOnAux sep l acc →
      ∀ c ∈ w, c ∈ acc ∨ (c ∈ l ∧ c ≠ sep)
  | [], acc, w, hw, c, hc => by
    simp only [splitOnAux, List.mem_singleton] at hw
    subst hw
    exact Or.inl (by simpa using hc)
  | a :: l, acc, w, hw, c, hc => by
    by_cases ha : a = sep
    · rw [ha, splitOnAux_sep] at hw
      rcases List.mem_cons.mp hw with h1 | h1
      · subst h1
        exact Or.inl (by simpa using hc)
      · rcases mem_splitOnAux sep l [] w h1 c hc with h2 | h2
        · simp at h2
        · exact Or.inr ⟨List.mem_cons_of_mem _ h2.1, h2.2⟩
    · rw [show splitOnAux sep (a :: l) acc = splitOnAux sep l (a :: acc) by
        simp only [splitOnAux, if_neg ha]] at hw
      rcases mem_splitOnAux sep l (a :: acc) w hw c hc with h2 | h2
      · rcases List.mem_cons.mp h2 with h3 | h3
        · subst h3
          exact Or.inr ⟨List.mem_cons_self _ _, ha⟩
        · exact Or.inl h3
      · exact Or.inr ⟨List.mem_cons_of_mem _ h2.1, h2.2⟩

theorem splitOn_joinHyphen :
    ∀ ws : List Str, ws ≠ [] → (∀ w ∈ ws, ∀ c ∈ w, c ≠ '-') →
      splitOn '-' (joinHyphen ws) = ws
  | [], h, _ => absurd rfl h
  | [w], _, hw => by
    rw [joinHyphen, splitOn, show (w : List Char) = w ++ [] by simp,
      splitOnAux_append_no_sep '-' w [] [] (hw w (by simp))]
    simp [splitOnAux]
  | w :: w2 :: ws, _, hw => by
    rw [show joinHyphen (w :: w2 :: ws) = w ++ '-' :: joinHyphen (w2 :: ws) from rfl,
      splitOn, splitOnAux_append_no_sep '-' w _ [] (hw w (by simp)), splitOnAux_sep]
    simp only [List.append_nil, List.reverse_reverse]
    rw [show splitOnAux '-' (joinHyphen (w2 :: ws)) [] = splitOn '-' (joinHyphen (w2 :: ws))
      from rfl]
    rw [splitOn_joinHyphen (w2 :: ws) (by simp) (fun v hv => hw v (by simp [hv]))]

theorem mem_joinHyphen :
    ∀ (ws : List Str) (c : Char), c ∈ joinHyphen ws → c = '-' ∨ ∃ w ∈ ws, c ∈ w
  | [], c, h => by simp [joinHyphen] at h
  | [w], c, h => Or.inr ⟨w, by simp, by simpa [joinHyphen] using h⟩
  | w :: w2 :: ws, c, h => by
    rw [show joinHyphen (w :: w2 :: ws) = w ++ '-' :: joinHyphen (w2 :: ws) from rfl] at h
    rcases List.mem_append.mp h with h1 | h1
    · exact Or.inr ⟨w, by simp, h1⟩
    · rcases List.mem_cons.mp h1 with h2 | h2
      · exact Or.inl h2
      · rcases mem_joinHyphen (w2 :: ws) c h2 with h3 | h3
        · exact Or.inl h3
        · obtain ⟨v, hv, hcv⟩ := h3
          exact Or.inr ⟨v, List.mem_cons_of_mem _ hv, hcv⟩

theorem pyIsAlnum_iff (c : Char) :
    pyIsAlnum c = true ↔
      (65 ≤ c.toNat ∧ c.toNat ≤ 90) ∨ (97 ≤ c.toNat ∧ c.toNat ≤ 122) ∨
        (48 ≤ c.toNat ∧ c.toNat ≤ 57) ∨ c.toNat = 304 := by
  simp [pyIsAlnum]

theorem pyIsAlnum_ne_hyphen (c : Char) (h : pyIsAlnum c = true) : c ≠ '-' := by
  intro e
  subst e
  exact absurd h (by decide)

theorem pyIsAlnum_ne_space (c : Char) (h : pyIsAlnum c = true) : c ≠ ' ' := by
  intro e
  subst e
  exact absurd h (by decide)

theorem keepChar_of_pyIsAlnum (c : Char) (h : pyIsAlnum c = true) :
    keepChar c = true := by
  simp [keepChar, h]

theorem pyLowerChar_hyphen : pyLowerChar '-' = ['-'] := by decide

theorem pyLowerChar_fixed (c : Char) (h1 : ¬(65 ≤ c.toNat ∧ c.toNat ≤ 90))
    (h2 : c.toNat ≠ 304) : pyLowerChar c = [c] := by
  rw [pyLowerChar, if_neg h2, if_neg h1]

theorem pyLowerChar_ascii_alnum (c : Char) (hA : c.toNat < 128)
    (hal : pyIsAlnum c = true) :
    ∃ c2, pyLowerChar c = [c2] ∧ c2.toNat < 128 ∧ pyIsAlnum c2 = true ∧
      pyLowerChar c2 = [c2] := by
  by_cases hu : 65 ≤ c.toNat ∧ c.toNat ≤ 90
  · have hv : (c.toNat + 32).isValidChar := Or.inl (by omega)
    refine ⟨Char.ofNat (c.toNat + 32), ?_, ?_, ?_, ?_⟩
    · rw [pyLowerChar, if_neg (by omega), if_pos hu]
    · rw [toNat_ofNat_valid _ hv]
      omega
    · rw [pyIsAlnum_iff, toNat_ofNat_valid _ hv]
      omega
    · refine pyLowerChar_fixed _ ?_ ?_ <;> rw [toNat_ofNat_valid _ hv] <;> omega
  · exact ⟨c, pyLowerChar_fixed c hu (by omega), hA, hal,
      pyLowerChar_fixed c hu (by omega)⟩

theorem flatMap_eq_self_of {f : Char → Str} {l : Str} (h : ∀ c ∈ l, f c = [c]) :
    l.flatMap f = l := by
  induction l with
  | nil => rfl
  | cons a l ih =>
    rw [List.flatMap_cons, h a (by simp), ih (fun c hc => h c (by simp [hc]))]
    rfl

theorem flatMap_ne_nil_of {f : Char → Str} {l : Str} (hne : l ≠ [])
    (h : ∀ c ∈ l, f c ≠ []) : l.flatMap f ≠ [] := by
  cases l with
  | nil => exact absurd rfl hne
  | cons a l =>
    rw [List.flatMap_cons]
    intro hcontra
    rcases List.append_eq_nil.mp hcontra with ⟨h1, _⟩
    exact h a (by simp) h1

theorem pyLower_append (a b : Str) : pyLower (a ++ b) = pyLower a ++ pyLower b := by
  simp [pyLower]

theorem pyLower_cons (c : Char) (s : Str) :
    pyLower (c :: s) = pyLowerChar c ++ pyLower s := by
  simp [pyLower]

theorem pyLower_joinHyphen :
    ∀ ws : List Str, pyLower (joinHyphen ws) = joinHyphen (ws.map pyLower)
  | [] => rfl
  | [w] => rfl
  | w :: w2 :: ws => by
    rw [show joinHyphen (w :: w2 :: ws) = w ++ '-' :: joinHyphen (w2 :: ws) from rfl,
      pyLower_append, pyLower_cons, pyLowerChar_hyphen,
      pyLower_joinHyphen (w2 :: ws)]
    rfl

/-- C2 helper: under an ASCII input, the words produced by the
nice-format pipeline before lowercasing are non-empty and consist of
ASCII alphanumeric, non-hyphen characters. -/
theorem nice_words_spec (s : Str) (hA : ∀ c ∈ s, c.toNat < 128) :
    ∀ w ∈ (splitOn '-' ((s.filter keepChar).map hyphenate)).filter
        (fun w => !w.isEmpty),
      w ≠ [] ∧ ∀ c ∈ w, c.toNat < 128 ∧ pyIsAlnum c = true ∧ c ≠ '-' := by
  intro w hw
  have hmem := (List.mem_filter.mp hw).1
  have hne : w ≠ [] := by
    have := (List.mem_filter.mp hw).2
    simpa using this
  refine ⟨hne, fun c hc => ?_⟩
  rcases mem_splitOnAux '-' _ [] w hmem c hc with h1 | h1
  · simp at h1
  · obtain ⟨hmem2, hcne⟩ := h1
    obtain ⟨c0, hc0, hc0e⟩ := List.mem_map.mp hmem2
    have hkeep : keepChar c0 = true := List.of_mem_filter hc0
    have hc0A : c0.toNat < 128 := hA c0 (List.mem_of_mem_filter hc0)
    by_cases hsp : c0 = ' '
    · subst hsp
      rw [show hyphenate ' ' = '-' from rfl] at hc0e
      exact absurd hc0e.symm hcne.symm.symm
    · rw [hyphenate_of_ne_space c0 hsp] at hc0e
      subst hc0e
      simp only [keepChar, Bool.or_eq_true, decide_eq_true_eq] at hkeep
      rcases hkeep with (h | h) | h
      · exact ⟨hc0A, h, hcne⟩
      · exact absurd h hsp
      · exact absurd h hcne

/-- C2 helper: after lowercasing, the nice-format words are non-empty
and consist of ASCII alphanumeric characters that are fixed points of
the lowercase mapping. -/
theorem nice_lowered_words_spec (s : Str) (hA : ∀ c ∈ s, c.toNat < 128) :
    ∀ w ∈ ((splitOn '-' ((s.filter keepChar).map hyphenate)).filter
        (fun w => !w.isEmpty)).map pyLower,
      w ≠ [] ∧ ∀ c ∈ w, c.toNat < 128 ∧ pyIsAlnum c = true ∧ c ≠ '-' ∧ c ≠ ' '
        ∧ pyLowerChar c = [c] := by
  intro w hw
  obtain ⟨w0, hw0, hw0e⟩ := List.mem_map.mp hw
  obtain ⟨hw0ne, hw0c⟩ := nice_words_spec s hA w0 hw0
  subst hw0e
  rw [pyLower]
  constructor
  · apply flatMap_ne_nil_of hw0ne
    intro c hc
    obtain ⟨c2, hc2, _⟩ := pyLowerChar_ascii_alnum c (hw0c c hc).1 (hw0c c hc).2.1
    rw [hc2]
    simp
  · intro c hc
    obtain ⟨c0, hc0, hcin⟩ := List.mem_flatMap.mp hc
    obtain ⟨c2, hc2eq, hc2A, hc2al, hc2fix⟩ :=
      pyLowerChar_ascii_alnum c0 (hw0c c0 hc0).1 (hw0c c0 hc0).2.1
    rw [hc2eq] at hcin
    have hcc : c = c2 := by simpa using hcin
    subst hcc
    exact ⟨hc2A, hc2al, pyIsAlnum_ne_hyphen _ hc2al, pyIsAlnum_ne_space _ hc2al,
      hc2fix⟩

/-- C2 (amended): `sanitize` is idempotent for every string when
nice-format is disabled, and for every ASCII string when it is enabled;
full-Unicode nice-mode idempotence fails (see the counterexample at
U+0130). -/
theorem sanitize_idempotent_ascii (config : Config) (s : Str) :
    (config.niceFormat = false →
      sanitize config (sanitize config s) = sanitize config s) ∧
    ((∀ c ∈ s, c.toNat < 128) →
      sanitize config (sanitize config s) = sanitize config s) := by
  have hplain : config.niceFormat = false →
      sanitize config (sanitize config s) = sanitize config s := by
    intro hn
    simp only [sanitize, hn, Bool.not_false, if_pos]
    exact filter_eq_self_of (fun c hc => (List.mem_filter.mp hc).2)
  refine ⟨hplain, ?_⟩
  intro hA
  cases hn : config.niceFormat with
  | false => exact hplain hn
  | true =>
    simp only [sanitize, hn, Bool.not_true, Bool.false_eq_true, if_false]
    set A := (splitOn '-' ((s.filter keepChar).map hyphenate)).filter
      (fun w => !w.isEmpty) with hAdef
    set r := pyLower (joinHyphen A) with hr
    have hwords := nice_lowered_words_spec s hA
    rw [← hAdef] at hwords
    have hr2 : r = joinHyphen (A.map pyLower) := by
      rw [hr, pyLower_joinHyphen]
    have hchars : ∀ c ∈ r, c = '-' ∨ (c.toNat < 128 ∧ pyIsAlnum c = true ∧ c ≠ '-'
        ∧ c ≠ ' ' ∧ pyLowerChar c = [c]) := by
      intro c hc
      rw [hr2] at hc
      rcases mem_joinHyphen _ c hc with h | h
      · exact Or.inl h
      · obtain ⟨w, hw, hcw⟩ := h
        exact Or.inr ((hwords w hw).2 c hcw)
    have hfilter : r.filter keepChar = r := by
      apply filter_eq_self_of
      intro c hc
      rcases hchars c hc with h | h
      · subst h
        decide
      · exact keepChar_of_pyIsAlnum c h.2.1
    have hhyph : r.map hyphenate = r := by
      apply map_eq_self_of
      intro c hc
      rcases hchars c hc with h | h
      · subst h
        decide
      · exact hyphenate_of_ne_space c h.2.2.2.1
    rw [hfilter, hhyph]
    rcases Decidable.em (A = []) with hAe | hAe
    · rw [hr, hAe]
      rfl
    · have hA2ne : A.map pyLower ≠ [] := by simpa using hAe
      have hsplit : splitOn '-' r = A.map pyLower := by
        rw [hr2]
        exact splitOn_joinHyphen _ hA2ne
          (fun w hw c hc => ((hwords w hw).2 c hc).2.2.1)
      rw [hsplit]
      have hne2 : (A.map pyLower).filter (fun w => !w.isEmpty) = A.map pyLower := by
        apply filter_eq_self_of
        intro w hw
        have := (hwords w hw).1
        simpa using this
      rw [hne2]
      have hfix : (A.map pyLower).map pyLower = A.map pyLower := by
        apply map_eq_self_of
        intro w hw
        rw [pyLower]
        exact flatMap_eq_self_of (fun c hc => ((hwords w hw).2 c hc).2.2.2.2)
      rw [pyLower_joinHyphen, hfix, ← hr2]

/-- C2 counterexample: nice-mode `sanitize` is not idempotent on the
program.  For the single-character string U+0130 (LATIN CAPITAL LETTER
I WITH DOT ABOVE, code point 304), Python's `str.lower` produces "i"
followed by U+0307 (COMBINING DOT ABOVE, code point 775); U+0307 is not
alphanumeric, so a second sanitization drops it. -/
theorem sanitize_not_idempotent_unicode :
    sanitize exConfigNice [Char.ofNat 304] = ['i', Char.ofNat 775] ∧
    sanitize exConfigNice (sanitize exConfigNice [Char.ofNat 304]) = ['i'] ∧
    sanitize exConfigNice (sanitize exConfigNice [Char.ofNat 304])
      ≠ sanitize exConfigNice [Char.ofNat 304] := by
  refine ⟨by decide, by decide, by decide⟩

/-- Witness for C2's amended theorem at concrete inputs in both modes. -/
theorem sanitize_idempotent_ascii_witness :
    exConfig.niceFormat = false ∧
    sanitize exConfig (sanitize exConfig (("a/b c").data))
      = sanitize exConfig (("a/b c").data) ∧
    (∀ c ∈ ("Disc 02").data, c.toNat < 128) ∧
    sanitize exConfigNice (sanitize exConfigNice (("Disc 02").data))
      = sanitize exConfigNice (("Disc 02").data) := by
  refine ⟨rfl, ?_, by decide, ?_⟩
  · exact (sanitize_idempotent_ascii exConfig (("a/b c").data)).1 rfl
  · exact (sanitize_idempotent_ascii exConfigNice (("Disc 02").data)).2 (by decide)

theorem natStrAux_zero : ∀ fuel, natStrAux fuel 0 = []
  | 0 => rfl
  | _ + 1 => by simp [natStrAux]

theorem natStrAux_length : ∀ fuel n : Nat, 0 < n → n ≤ fuel →
    (natStrAux fuel n).length = Nat.log 10 n + 1
  | 0, _, h1, h2 => by omega
  | fuel + 1, n, h1, _h2 => by
    have hne : n ≠ 0 := by omega
    rw [natStrAux, if_neg hne]
    by_cases h10 : n < 10
    · have hz : n / 10 = 0 := Nat.div_eq_of_lt h10
      rw [hz, natStrAux_zero, List.nil_append]
      have hl : Nat.log 10 n = 0 := Nat.log_eq_zero_iff.mpr (Or.inl h10)
      rw [List.length_singleton, hl]
    · have hd : 0 < n / 10 := Nat.div_pos (by omega) (by omega)
      have hdf : n / 10 ≤ fuel := by
        have := Nat.div_lt_self h1 (by omega : 1 < 10)
        omega
      rw [List.length_append, natStrAux_length fuel (n / 10) hd hdf]
      have hlog : Nat.log 10 n = Nat.log 10 (n / 10) + 1 := by
        have ha := Nat.log_div_base 10 n
        have hb : 0 < Nat.log 10 n := Nat.log_pos (by omega) (by omega)
        omega
      rw [List.length_singleton, hlog]

theorem natStr_length (n : Nat) :
    (natStr n).length = if n = 0 then 1 else Nat.log 10 n + 1 := by
  by_cases h : n = 0
  · simp [natStr, h]
  · rw [natStr, if_neg h, natStrAux_length n n (by omega) le_rfl, if_neg h]

theorem natStr_length_mono {n m : Nat} (h : n ≤ m) :
    (natStr n).length ≤ (natStr m).length := by
  rw [natStr_length, natStr_length]
  rcases Nat.eq_zero_or_pos n with hn | hn
  · subst hn
    split <;> split <;> omega
  · have hm : m ≠ 0 := by omega
    rw [if_neg (by omega), if_neg hm]
    have := Nat.log_mono_right (b := 10) h
    omega

theorem zfill_length (w : Nat) (s : Str) : (zfill w s).length = max w s.length := by
  rw [zfill, List.length_append, List.length_replicate]
  rcases Nat.le_total w s.length with h | h
  · rw [Nat.max_eq_right h]; omega
  · rw [Nat.max_eq_left h]; omega

theorem paddedNumeral_length {n maxN : Nat} (h : n ≤ maxN) :
    (paddedNumeral n maxN).length = (natStr maxN).length := by
  rw [paddedNumeral, zfill_length, Nat.max_eq_left (natStr_length_mono h)]

theorem le_foldl_max_init : ∀ (xs : List Nat) (x y : Nat), x ≤ y → x ≤ xs.foldl max y
  | [], _, _, h => h
  | z :: zs, x, y, h => by
    rw [List.foldl_cons]
    exact le_foldl_max_init zs x (max y z) (le_trans h (Nat.le_max_left y z))

theorem le_foldl_max_mem : ∀ (xs : List Nat) (x n : Nat), n ∈ xs → n ≤ xs.foldl max x
  | z :: zs, x, n, hn => by
    rw [List.foldl_cons]
    rcases List.mem_cons.mp hn with h | h
    · subst h
      exact le_foldl_max_init zs n (max x n) (Nat.le_max_right x n)
    · exact le_foldl_max_mem zs (max x z) n h

theorem le_pyMax {l : List Nat} {m n : Nat} (hm : pyMax l = Except.ok m) (hn : n ∈ l) :
    n ≤ m := by
  cases l with
  | nil => simp [pyMax] at hm
  | cons x xs =>
    simp only [pyMax, Except.ok.injEq] at hm
    subst hm
    rcases List.mem_cons.mp hn with h | h
    · subst h
      exact le_foldl_max_init xs n n le_rfl
    · exact le_foldl_max_mem xs x n h

theorem pyMax_ok_of_ne_nil {l : List Nat} (h : l ≠ []) : ∃ m, pyMax l = Except.ok m := by
  cases l with
  | nil => exact absurd rfl h
  | cons x xs => exact ⟨xs.foldl max x, rfl⟩

theorem siblingsOrFetch_some {client : Client} {album : Album} {l : List Track}
    (h : l ≠ []) : siblingsOrFetch client album (some l) = (l, []) := by
  simp [siblingsOrFetch, List.isEmpty_eq_false.mpr h]

theorem albumFragments_ok {config : Config} {track : Track} {sibs : List Track}
    (artist_path : Str) {maxD maxT : Nat}
    (hD : pyMax (sibs.map (fun s => s.disc_number)) = Except.ok maxD)
    (hT : pyMax (sibs.map (fun s => s.track_number)) = Except.ok maxT) :
    albumFragments config track sibs artist_path
      = Except.ok ⟨artist_path, sanitize config track.album.name,
          (if 1 < maxD then
            sanitize config (("Disc ").data ++ paddedNumeral track.disc_number maxD)
          else []),
          sanitize config
            (paddedNumeral track.track_number maxT ++ ' ' :: track.name)⟩ := by
  rw [albumFragments, hD, hT]

theorem get_track_path_body_album {client : Client} {config : Config} {track : Track}
    {sibs : List Track} (artist_path : Str) (hne : sibs ≠ [])
    {maxD maxT : Nat}
    (hD : pyMax (sibs.map (fun s => s.disc_number)) = Except.ok maxD)
    (hT : pyMax (sibs.map (fun s => s.track_number)) = Except.ok maxT) :
    get_track_path_body client config track (some sibs) true artist_path
      = ([], Except.ok ⟨artist_path, sanitize config track.album.name,
          (if 1 < maxD then
            sanitize config (("Disc ").data ++ paddedNumeral track.disc_number maxD)
          else []),
          sanitize config
            (paddedNumeral track.track_number maxT ++ ' ' :: track.name)⟩) := by
  simp only [get_track_path_body, Bool.true_or, if_true, siblingsOrFetch_some hne]
  rw [albumFragments_ok artist_path hD hT]

/-- C7 (explicit): with a shared sibling list, the zero-padded track and
disc numerals of any two sibling tracks have the same width (the digit
count of the maximum track and disc number seen in the album fetch), and
`get_track_path` emits the disc directory segment only when the maximum
disc number exceeds one. -/
theorem get_track_path_padding_consistent (client : Client) (config : Config)
    (sibs : List Track) (t1 t2 : Track) (ap1 ap2 : Str) (maxD maxT : Nat)
    (h1 : t1 ∈ sibs) (h2 : t2 ∈ sibs)
    (hD : pyMax (sibs.map (fun s => s.disc_number)) = Except.ok maxD)
    (hT : pyMax (sibs.map (fun s => s.track_number)) = Except.ok maxT) :
    (paddedNumeral t1.track_number maxT).length = (natStr maxT).length ∧
    (paddedNumeral t2.track_number maxT).length = (natStr maxT).length ∧
    (paddedNumeral t1.disc_number maxD).length = (natStr maxD).length ∧
    (paddedNumeral t2.disc_number maxD).length = (natStr maxD).length ∧
    (∃ p1, get_track_path_body client config t1 (some sibs) true ap1
        = ([], Except.ok p1) ∧
      p1.file = sanitize config (paddedNumeral t1.track_number maxT ++ ' ' :: t1.name) ∧
      (maxD ≤ 1 → p1.disc = []) ∧
      (1 < maxD →
        p1.disc = sanitize config
          (("Disc ").data ++ paddedNumeral t1.disc_number maxD))) ∧
    (∃ p2, get_track_path_body client config t2 (some sibs) true ap2
        = ([], Except.ok p2) ∧
      p2.file = sanitize config (paddedNumeral t2.track_number maxT ++ ' ' :: t2.name)) := by
  have hne : sibs ≠ [] := List.ne_nil_of_mem h1
  refine ⟨paddedNumeral_length (le_pyMax hT (List.mem_map_of_mem _ h1)),
    paddedNumeral_length (le_pyMax hT (List.mem_map_of_mem _ h2)),
    paddedNumeral_length (le_pyMax hD (List.mem_map_of_mem _ h1)),
    paddedNumeral_length (le_pyMax hD (List.mem_map_of_mem _ h2)), ?_, ?_⟩
  · refine ⟨_, get_track_path_body_album ap1 hne hD hT, rfl, ?_, ?_⟩
    · intro hle
      simp [Nat.not_lt.mpr hle]
    · intro hlt
      simp [hlt]
  · exact ⟨_, get_track_path_body_album ap2 hne hD hT, rfl⟩

theorem siblingsOrFetch_events (client : Client) (album : Album)
    (osibs : Option (List Track)) :
    ∀ e ∈ (siblingsOrFetch client album osibs).2, e = Event.albumTracksFetch album.id := by
  cases osibs with
  | none => simp [siblingsOrFetch]
  | some l =>
    by_cases h : l.isEmpty <;> simp [siblingsOrFetch, h]

theorem get_track_path_body_events (client : Client) (config : Config) (track : Track)
    (siblings : Option (List Track)) (include_album : Bool) (artist_path : Str) :
    ∀ e ∈ (get_track_path_body client config track siblings include_album artist_path).1,
      e = Event.albumTracksFetch track.album.id := by
  simp only [get_track_path_body]
  split
  · exact siblingsOrFetch_events client track.album siblings
  · simp

theorem get_track_path_events (client : Client) (config : Config) (track : Track)
    (siblings : Option (List Track)) (include_artist include_album : Bool) :
    ∀ e ∈ (get_track_path client config track siblings include_artist include_album).1,
      e = Event.albumTracksFetch track.album.id := by
  rw [get_track_path]
  split
  · split
    · simp
    · exact get_track_path_body_events client config track siblings include_album _
  · exact get_track_path_body_events client config track siblings include_album _

theorem get_track_path_body_some_events (client : Client) (config : Config)
    (track : Track) {l : List Track} (hl : l ≠ []) (include_album : Bool)
    (artist_path : Str) :
    (get_track_path_body client config track (some l) include_album artist_path).1
      = [] := by
  simp only [get_track_path_body, siblingsOrFetch_some hl]
  split
  · rfl
  · rfl

theorem get_track_path_some_events (client : Client) (config : Config) (track : Track)
    {l : List Track} (hl : l ≠ []) (include_artist include_album : Bool) :
    (get_track_path client config track (some l) include_artist include_album).1 = [] := by
  rw [get_track_path]
  split
  · split
    · rfl
    · exact get_track_path_body_some_events client config track hl include_album _
  · exact get_track_path_body_some_events client config track hl include_album _

theorem get_media_with_retry_ok0 {client : Client} {d : Bool}
    (h : client.getMedia 0 = MediaResult.ok d) :
    get_media_with_retry client = ([Event.getMedia], Except.ok d) := by
  rw [get_media_with_retry, h]

theorem get_media_with_retry_err0 {client : Client} {s : Nat} {ss : Option Nat}
    (h : client.getMedia 0 = MediaResult.err s ss) (hs : s ≠ 429) :
    get_media_with_retry client = ([Event.getMedia], Except.error (s, ss)) := by
  rw [get_media_with_retry, h]
  exact if_neg hs

theorem get_media_with_retry_429_ok {client : Client} {ss : Option Nat} {d : Bool}
    (h0 : client.getMedia 0 = MediaResult.err 429 ss)
    (h1 : client.getMedia 1 = MediaResult.ok d) :
    get_media_with_retry client
      = ([Event.getMedia, Event.authenticate, Event.getMedia], Except.ok d) := by
  rw [get_media_with_retry, h0]
  simp [h1]

theorem get_media_with_retry_429_err {client : Client} {ss ss2 : Option Nat} {s2 : Nat}
    (h0 : client.getMedia 0 = MediaResult.err 429 ss)
    (h1 : client.getMedia 1 = MediaResult.err s2 ss2) :
    get_media_with_retry client
      = ([Event.getMedia, Event.authenticate, Event.getMedia], Except.error (s2, ss2)) := by
  rw [get_media_with_retry, h0]
  simp [h1]

theorem get_media_with_retry_events (client : Client) :
    ∀ e ∈ (get_media_with_retry client).1,
      e = Event.getMedia ∨ e = Event.authenticate := by
  intro e he
  cases h : client.getMedia 0 with
  | ok d =>
    rw [get_media_with_retry_ok0 h] at he
    exact Or.inl (by simpa using he)
  | err s ss =>
    by_cases hs : s = 429
    · subst hs
      cases h1 : client.getMedia 1 with
      | ok d =>
        rw [get_media_with_retry_429_ok h h1] at he
        simp at he
        tauto
      | err s2 ss2 =>
        rw [get_media_with_retry_429_err h h1] at he
        simp at he
        tauto
    · rw [get_media_with_retry_err0 h hs] at he
      exact Or.inl (by simpa using he)

theorem embedStep_events (track : Track) (world : World) (evs : List Event) :
    ∀ e ∈ (embedStep track world evs).1, e ∈ evs ∨ e = Event.embed := by
  rw [embedStep]
  split
  · intro e he
    rcases List.mem_append.mp he with h | h
    · exact Or.inl h
    · exact Or.inr (by simpa using h)
  · exact fun e he => Or.inl he

theorem resolve_metadata_events (config : Config) (track : Track) (world : World) :
    ∀ e ∈ (resolve_metadata config track world).1,
      e = Event.coverFetch ∨ e = Event.embed := by
  rw [resolve_metadata]
  split
  · split
    · intro e he
      rcases embedStep_events track world [Event.coverFetch] e he with h | h
      · exact Or.inl (by simpa using h)
      · exact Or.inr h
    · simp
  · intro e he
    rcases embedStep_events track world [] e he with h | h
    · simp at h
    · exact Or.inr h

theorem metaPhase_events (config : Config) (track : Track) (world : World)
    (tp fp : Str) (fs : FS) (evs : List Event) :
    ∀ e ∈ (metaPhase config track world tp fp fs evs).2.2,
      e ∈ evs ∨ e = Event.coverFetch ∨ e = Event.embed ∨ e = Event.removeTemp
        ∨ e = Event.rename := by
  simp only [metaPhase]
  split
  · intro e he
    rcases List.mem_append.mp he with h | h
    · exact Or.inl h
    · exact Or.inr (Or.inr (Or.inr (Or.inr (by simpa using h))))
  · split
    · intro e he
      rcases List.mem_append.mp he with h | h
      · rcases List.mem_append.mp h with h2 | h2
        · exact Or.inl h2
        · rcases resolve_metadata_events config track world e h2 with h3 | h3
          · exact Or.inr (Or.inl h3)
          · exact Or.inr (Or.inr (Or.inl h3))
      · exact Or.inr (Or.inr (Or.inr (Or.inl (by simpa using h))))
    · intro e he
      rcases List.mem_append.mp he with h | h
      · exact Or.inl h
      · rcases resolve_metadata_events config track world e h with h3 | h3
        · exact Or.inr (Or.inl h3)
        · exact Or.inr (Or.inr (Or.inl h3))
    · intro e he
      rcases List.mem_append.mp he with h | h
      · rcases List.mem_append.mp h with h2 | h2
        · exact Or.inl h2
        · rcases resolve_metadata_events config track world e h2 with h3 | h3
          · exact Or.inr (Or.inl h3)
          · exact Or.inr (Or.inr (Or.inl h3))
      · exact Or.inr (Or.inr (Or.inr (Or.inr (by simpa using h))))

theorem finishPhase_events (config : Config) (track : Track) (world : World)
    (hasDecryptor : Bool) (tp fp : Str) (fs : FS) :
    ∀ e ∈ (finishPhase config track world hasDecryptor tp fp fs).2.2,
      e = Event.makedirs ∨ e = Event.payloadRequest ∨ e = Event.writeTemp
        ∨ e = Event.decrypt ∨ e = Event.coverFetch ∨ e = Event.embed
        ∨ e = Event.removeTemp ∨ e = Event.rename := by
  rw [finishPhase]
  split
  · split
    · split
      · intro e he
        rcases metaPhase_events config track world tp fp _ _ e he with h | h
        · simp only [List.mem_cons, List.not_mem_nil, or_false] at h
          tauto
        · tauto
      · intro e he
        simp only [List.mem_cons, List.not_mem_nil, or_false] at he
        tauto
    · intro e he
      rcases metaPhase_events config track world tp fp _ _ e he with h | h
      · simp only [List.mem_cons, List.not_mem_nil, or_false] at h
        tauto
      · tauto
  · intro e he
    simp only [List.mem_cons, List.not_mem_nil, or_false] at he
    tauto

theorem setFile_same (fs : FS) (p : Str) (b : Bool) : setFile fs p b p = b := by
  simp [setFile]

theorem setFile_other (fs : FS) (p q : Str) (b : Bool) (h : q ≠ p) :
    setFile fs p b q = fs q := by
  simp [setFile, h]

theorem tempPath_ne_finalPath (config : Config) (parts : Parts) (ext : Str) :
    tempPathOf config parts ext ≠ finalPathOf config parts ext := by
  intro h
  have hlen := congrArg List.length h
  have hT : TEMPORARY_EXTENSION.length = 4 := rfl
  simp only [tempPathOf, finalPathOf, List.length_append, List.length_cons, hT] at hlen
  omega

theorem metaPhase_spec (config : Config) (track : Track) (world : World)
    (tp fp : Str) (fs : FS) (evs : List Event) (hne : tp ≠ fp)
    (hrn : Event.rename ∉ evs) :
    ((metaPhase config track world tp fp fs evs).1 = DResult.completed →
      (metaPhase config track world tp fp fs evs).2.2.getLast? = some Event.rename
        ∧ (metaPhase config track world tp fp fs evs).2.1 fp = true
        ∧ (metaPhase config track world tp fp fs evs).2.1 tp = false) ∧
    ((metaPhase config track world tp fp fs evs).1 ≠ DResult.completed →
      (metaPhase config track world tp fp fs evs).2.1 fp = fs fp
        ∧ Event.rename ∉ (metaPhase config track world tp fp fs evs).2.2
        ∧ ∀ p, p ≠ tp → (metaPhase config track world tp fp fs evs).2.1 p = fs p) := by
  have hrmne : Event.rename ∉ (resolve_metadata config track world).1 := by
    intro hmem
    rcases resolve_metadata_events config track world _ hmem with h | h <;> simp at h
  by_cases hsk : config.skipMetadata = true
  · have heq : metaPhase config track world tp fp fs evs
        = (DResult.completed, setFile (setFile fs tp false) fp true,
            evs ++ [Event.rename]) := by
      simp [metaPhase, hsk]
    rw [heq]
    exact ⟨fun _ => ⟨List.getLast?_concat _, by simp [setFile], by simp [setFile, hne]⟩,
      fun hc => absurd rfl hc⟩
  · have hsk2 : config.skipMetadata = false := by simpa using hsk
    cases hres : (resolve_metadata config track world).2 with
    | ok u =>
      have heq : metaPhase config track world tp fp fs evs
          = (DResult.completed, setFile (setFile fs tp false) fp true,
              evs ++ (resolve_metadata config track world).1 ++ [Event.rename]) := by
        simp [metaPhase, hsk2, hres]
      rw [heq]
      exact ⟨fun _ => ⟨List.getLast?_concat _, by simp [setFile], by simp [setFile, hne]⟩,
        fun hc => absurd rfl hc⟩
    | error pe =>
      by_cases hpe : pe = PyErr.invalidFile
      · subst hpe
        have heq : metaPhase config track world tp fp fs evs
            = (DResult.skippedInvalidFile, setFile fs tp false,
                evs ++ (resolve_metadata config track world).1
                  ++ [Event.removeTemp]) := by
          simp [metaPhase, hsk2, hres]
        rw [heq]
        refine ⟨fun hc => by simp at hc,
          fun _ => ⟨by simp [setFile, Ne.symm hne], ?_, fun p hp => by simp [setFile, hp]⟩⟩
        intro hmem
        rcases List.mem_append.mp hmem with h | h
        · rcases List.mem_append.mp h with h2 | h2
          · exact hrn h2
          · exact hrmne h2
        · simp at h
      · have heq : metaPhase config track world tp fp fs evs
            = (DResult.fatal pe, fs, evs ++ (resolve_metadata config track world).1) := by
          cases pe
          all_goals first
            | exact absurd rfl hpe
            | simp [metaPhase, hsk2, hres]
        rw [heq]
        refine ⟨fun hc => by simp at hc, fun _ => ⟨rfl, ?_, fun p _ => rfl⟩⟩
        intro hmem
        rcases List.mem_append.mp hmem with h | h
        · exact hrn h
        · exact hrmne h

theorem finishPhase_spec (config : Config) (track : Track) (world : World)
    (hasDecryptor : Bool) (tp fp : Str) (fs : FS) (hne : tp ≠ fp) :
    ((finishPhase config track world hasDecryptor tp fp fs).1 = DResult.completed →
      (finishPhase config track world hasDecryptor tp fp fs).2.2.getLast?
          = some Event.rename
        ∧ (finishPhase config track world hasDecryptor tp fp fs).2.1 fp = true
        ∧ (finishPhase config track world hasDecryptor tp fp fs).2.1 tp = false) ∧
    ((finishPhase config track world hasDecryptor tp fp fs).1 ≠ DResult.completed →
      (finishPhase config track world hasDecryptor tp fp fs).2.1 fp = fs fp
        ∧ Event.rename ∉ (finishPhase config track world hasDecryptor tp fp fs).2.2
        ∧ ∀ p, p ≠ tp →
            (finishPhase config track world hasDecryptor tp fp fs).2.1 p = fs p) := by
  have hfs1 : ∀ p, p ≠ tp → setFile fs tp true p = fs p :=
    fun p hp => by simp [setFile, hp]
  by_cases hst : world.streamOk = true
  · by_cases hdc : hasDecryptor = true
    · by_cases hdk : world.decryptOk = true
      · have heq : finishPhase config track world hasDecryptor tp fp fs
            = metaPhase config track world tp fp (setFile fs tp true)
                [Event.makedirs, Event.payloadRequest, Event.writeTemp, Event.decrypt] := by
          simp [finishPhase, hst, hdc, hdk]
        rw [heq]
        have hm := metaPhase_spec config track world tp fp (setFile fs tp true)
          [Event.makedirs, Event.payloadRequest, Event.writeTemp, Event.decrypt]
          hne (by decide)
        refine ⟨hm.1, fun hc => ?_⟩
        obtain ⟨ha, hb, hcc⟩ := hm.2 hc
        exact ⟨ha.trans (hfs1 fp (Ne.symm hne)), hb,
          fun p hp => (hcc p hp).trans (hfs1 p hp)⟩
      · have hdk2 : world.decryptOk = false := by simpa using hdk
        have heq : finishPhase config track world hasDecryptor tp fp fs
            = (DResult.fatal PyErr.decryptError, setFile fs tp true,
                [Event.makedirs, Event.payloadRequest, Event.writeTemp,
                  Event.decrypt]) := by
          simp [finishPhase, hst, hdc, hdk2]
        rw [heq]
        exact ⟨fun hc => by simp at hc,
          fun _ => ⟨hfs1 fp (Ne.symm hne), by simp, hfs1⟩⟩
    · have hdc2 : hasDecryptor = false := by simpa using hdc
      have heq : finishPhase config track world hasDecryptor tp fp fs
          = metaPhase config track world tp fp (setFile fs tp true)
              [Event.makedirs, Event.payloadRequest, Event.writeTemp] := by
        simp [finishPhase, hst, hdc2]
      rw [heq]
      have hm := metaPhase_spec config track world tp fp (setFile fs tp true)
        [Event.makedirs, Event.payloadRequest, Event.writeTemp] hne (by decide)
      refine ⟨hm.1, fun hc => ?_⟩
      obtain ⟨ha, hb, hcc⟩ := hm.2 hc
      exact ⟨ha.trans (hfs1 fp (Ne.symm hne)), hb,
        fun p hp => (hcc p hp).trans (hfs1 p hp)⟩
  · have hst2 : world.streamOk = false := by simpa using hst
    have heq : finishPhase config track world hasDecryptor tp fp fs
        = (DResult.fatal PyErr.streamHttpError, fs,
            [Event.makedirs, Event.payloadRequest]) := by
      simp [finishPhase, hst2]
    rw [heq]
    exact ⟨fun hc => by simp at hc, fun _ => ⟨rfl, by simp, fun p _ => rfl⟩⟩

theorem download_track_of_gp_err {client : Client} {config : Config} {track : Track}
    {siblings : Option (List Track)} {include_artist include_album : Bool}
    {ev0 : List Event} {e : PyErr}
    (hgp : get_track_path client config track siblings include_artist include_album
      = (ev0, Except.error e)) (world : World) (fs : FS) :
    download_track client config track siblings include_artist include_album world fs
      = (DResult.fatal e, fs, ev0) := by
  rw [download_track, hgp]
  rfl

theorem download_track_of_exists {client : Client} {config : Config} {track : Track}
    {siblings : Option (List Track)} {include_artist include_album : Bool}
    {ev0 : List Event} {parts : Parts} {fs : FS}
    (hgp : get_track_path client config track siblings include_artist include_album
      = (ev0, Except.ok parts))
    (hf : fs (finalPathOf config parts track.extension) = true) (world : World) :
    download_track client config track siblings include_artist include_album world fs
      = (DResult.skippedExists, fs, ev0) := by
  rw [download_track, hgp]
  simp only [download_track_after, hf, if_true]

theorem download_track_of_media_err {client : Client} {config : Config} {track : Track}
    {siblings : Option (List Track)} {include_artist include_album : Bool}
    {ev0 evm : List Event} {parts : Parts} {fs : FS} {s : Nat} {ss : Option Nat}
    (hgp : get_track_path client config track siblings include_artist include_album
      = (ev0, Except.ok parts))
    (hf : fs (finalPathOf config parts track.extension) = false)
    (hm : get_media_with_retry client = (evm, Except.error (s, ss))) (world : World) :
    download_track client config track siblings include_artist include_album world fs
      = (if s = 401 ∧ ss = some 4005 then (DResult.skippedNotAvailable, fs, ev0 ++ evm)
          else (DResult.fatal (PyErr.httpError s ss), fs, ev0 ++ evm)) := by
  rw [download_track, hgp]
  simp only [download_track_after, hf, Bool.false_eq_true, if_false, hm,
    download_track_media]

theorem download_track_of_media_ok {client : Client} {config : Config} {track : Track}
    {siblings : Option (List Track)} {include_artist include_album : Bool}
    {ev0 evm : List Event} {parts : Parts} {fs : FS} {d : Bool}
    (hgp : get_track_path client config track siblings include_artist include_album
      = (ev0, Except.ok parts))
    (hf : fs (finalPathOf config parts track.extension) = false)
    (hm : get_media_with_retry client = (evm, Except.ok d)) (world : World) :
    download_track client config track siblings include_artist include_album world fs
      = ((finishPhase config track world d (tempPathOf config parts track.extension)
            (finalPathOf config parts track.extension) fs).1,
        (finishPhase config track world d (tempPathOf config parts track.extension)
            (finalPathOf config parts track.extension) fs).2.1,
        ev0 ++ evm ++ (finishPhase config track world d
            (tempPathOf config parts track.extension)
            (finalPathOf config parts track.extension) fs).2.2) := by
  rw [download_track, hgp]
  simp only [download_track_after, hf, Bool.false_eq_true, if_false, hm,
    download_track_media]

/-- C1 (amended): when the final path already exists, `download_track`
logs a skip and returns: no media-locator request, no re-authentication,
no payload transfer, and no file is created, modified or deleted.  The
only events that can occur are hierarchy-listing fetches performed by
`get_track_path` while computing the path (which do happen when album
inclusion is active and no non-empty sibling list was supplied). -/
theorem download_track_skip_exists (client : Client) (config : Config) (track : Track)
    (siblings : Option (List Track)) (include_artist include_album : Bool)
    (world : World) (fs : FS) (ev0 : List Event) (parts : Parts)
    (hgp : get_track_path client config track siblings include_artist include_album
      = (ev0, Except.ok parts))
    (hf : fs (finalPathOf config parts track.extension) = true) :
    (download_track client config track siblings include_artist include_album
        world fs).1 = DResult.skippedExists ∧
    (download_track client config track siblings include_artist include_album
        world fs).2.1 = fs ∧
    (download_track client config track siblings include_artist include_album
        world fs).2.2 = ev0 ∧
    ∀ e ∈ (download_track client config track siblings include_artist include_album
        world fs).2.2, e = Event.albumTracksFetch track.album.id := by
  rw [download_track_of_exists hgp hf world]
  refine ⟨rfl, rfl, rfl, fun e he => ?_⟩
  exact get_track_path_events client config track siblings include_artist include_album e
    (by rw [hgp]; exact he)

/-- C1 counterexample: with `full-structure` enabled and no sibling
list supplied, `download_track` on a track whose final path already
exists still performs a hierarchy-listing fetch (a network call) before
the existence check, so "no network call of any kind" is false. -/
theorem download_track_existing_full_structure_fetches :
    exFsFull exFinalPathFull = true ∧
    (download_track exClientOk exConfigFull exTrack none false false exWorld
        exFsFull).1 = DResult.skippedExists ∧
    Event.albumTracksFetch exAlbum.id ∈
      (download_track exClientOk exConfigFull exTrack none false false exWorld
        exFsFull).2.2 := by
  refine ⟨by decide, by decide, by decide⟩

/-- C3 (explicit): when every media-locator request rate-limits (HTTP
429), `download_track` re-authenticates exactly once, re-requests
exactly once (two media requests in total), and escalates the second
429 as a fatal HTTP error without touching the filesystem. -/
theorem download_track_rate_limit_single_retry (client : Client) (config : Config)
    (track : Track) (siblings : Option (List Track))
    (include_artist include_album : Bool) (world : World) (fs : FS)
    (ev0 : List Event) (parts : Parts) (ss : Option Nat)
    (hgp : get_track_path client config track siblings include_artist include_album
      = (ev0, Except.ok parts))
    (hf : fs (finalPathOf config parts track.extension) = false)
    (hm : ∀ n, client.getMedia n = MediaResult.err 429 ss) :
    (download_track client config track siblings include_artist include_album
        world fs).1 = DResult.fatal (PyErr.httpError 429 ss) ∧
    (download_track client config track siblings include_artist include_album
        world fs).2.1 = fs ∧
    (download_track client config track siblings include_artist include_album
        world fs).2.2.count Event.authenticate = 1 ∧
    (download_track client config track siblings include_artist include_album
        world fs).2.2.count Event.getMedia = 2 := by
  have hmr := get_media_with_retry_429_err (hm 0) (hm 1)
  have heq := download_track_of_media_err hgp hf hmr world
  rw [heq, if_neg (by simp)]
  have hev0 : ∀ e ∈ ev0, e = Event.albumTracksFetch track.album.id := by
    intro e he
    exact get_track_path_events client config track siblings include_artist
      include_album e (by rw [hgp]; exact he)
  have hauth : Event.authenticate ∉ ev0 := by
    intro hmem
    have := hev0 _ hmem
    simp at this
  have hgm : Event.getMedia ∉ ev0 := by
    intro hmem
    have := hev0 _ hmem
    simp at this
  refine ⟨rfl, rfl, ?_, ?_⟩
  · rw [List.count_append, List.count_eq_zero.mpr hauth]
    decide
  · rw [List.count_append, List.count_eq_zero.mpr hgm]
    decide

/-- C4 (explicit): a media-locator failure carrying the not-entitled
signal (HTTP 401 with sub-status 4005) — on the first attempt or on the
single post-429 retry — makes `download_track` return normally with a
logged skip and an unchanged filesystem, while any other pair reaching
the outer handler escapes as a fatal HTTP error. -/
theorem download_track_not_entitled_skip (client : Client) (config : Config)
    (track : Track) (siblings : Option (List Track))
    (include_artist include_album : Bool) (world : World) (fs : FS)
    (ev0 : List Event) (parts : Parts)
    (hgp : get_track_path client config track siblings include_artist include_album
      = (ev0, Except.ok parts))
    (hf : fs (finalPathOf config parts track.extension) = false) :
    (client.getMedia 0 = MediaResult.err 401 (some 4005) →
      (download_track client config track siblings include_artist include_album
          world fs).1 = DResult.skippedNotAvailable ∧
      (download_track client config track siblings include_artist include_album
          world fs).2.1 = fs) ∧
    (∀ ss s2 ss2, client.getMedia 0 = MediaResult.err 429 ss →
      client.getMedia 1 = MediaResult.err s2 ss2 →
      (s2 = 401 ∧ ss2 = some 4005 →
        (download_track client config track siblings include_artist include_album
            world fs).1 = DResult.skippedNotAvailable ∧
        (download_track client config track siblings include_artist include_album
            world fs).2.1 = fs) ∧
      (¬(s2 = 401 ∧ ss2 = some 4005) →
        (download_track client config track siblings include_artist include_album
            world fs).1 = DResult.fatal (PyErr.httpError s2 ss2) ∧
        (download_track client config track siblings include_artist include_album
            world fs).2.1 = fs)) ∧
    (∀ s ss, client.getMedia 0 = MediaResult.err s ss → s ≠ 429 →
      ¬(s = 401 ∧ ss = some 4005) →
      (download_track client config track siblings include_artist include_album
          world fs).1 = DResult.fatal (PyErr.httpError s ss) ∧
      (download_track client config track siblings include_artist include_album
          world fs).2.1 = fs) := by
  refine ⟨?_, ?_, ?_⟩
  · intro h0
    have hmr := get_media_with_retry_err0 h0 (by decide)
    rw [download_track_of_media_err hgp hf hmr world, if_pos ⟨rfl, rfl⟩]
    exact ⟨rfl, rfl⟩
  · intro ss s2 ss2 h0 h1
    have hmr := get_media_with_retry_429_err h0 h1
    have heq := download_track_of_media_err hgp hf hmr world
    constructor
    · intro hpair
      rw [heq, if_pos hpair]
      exact ⟨rfl, rfl⟩
    · intro hpair
      rw [heq, if_neg hpair]
      exact ⟨rfl, rfl⟩
  · intro s ss h0 hs hpair
    have hmr := get_media_with_retry_err0 h0 hs
    rw [download_track_of_media_err hgp hf hmr world, if_neg hpair]
    exact ⟨rfl, rfl⟩

/-- C5 (explicit): the temp-to-final rename is the last event of every
completed `download_track` run, and every run that does not complete
leaves no file at the final path and changes no path other than the
temporary one. -/
theorem download_track_finalize_last (client : Client) (config : Config)
    (track : Track) (siblings : Option (List Track))
    (include_artist include_album : Bool) (world : World) (fs : FS)
    (ev0 : List Event) (parts : Parts)
    (hgp : get_track_path client config track siblings include_artist include_album
      = (ev0, Except.ok parts))
    (hf : fs (finalPathOf config parts track.extension) = false) :
    ((download_track client config track siblings include_artist include_album
        world fs).1 = DResult.completed →
      (download_track client config track siblings include_artist include_album
          world fs).2.2.getLast? = some Event.rename
        ∧ (download_track client config track siblings include_artist include_album
            world fs).2.1 (finalPathOf config parts track.extension) = true
        ∧ (download_track client config track siblings include_artist include_album
            world fs).2.1 (tempPathOf config parts track.extension) = false) ∧
    ((download_track client config track siblings include_artist include_album
        world fs).1 ≠ DResult.completed →
      (download_track client config track siblings include_artist include_album
          world fs).2.1 (finalPathOf config parts track.extension) = false
        ∧ Event.rename ∉ (download_track client config track siblings include_artist
            include_album world fs).2.2
        ∧ ∀ p, p ≠ tempPathOf config parts track.extension →
            (download_track client config track siblings include_artist include_album
              world fs).2.1 p = fs p) := by
  have hne := tempPath_ne_finalPath config parts track.extension
  have hev0 : ∀ e ∈ ev0, e = Event.albumTracksFetch track.album.id := by
    intro e he
    exact get_track_path_events client config track siblings include_artist
      include_album e (by rw [hgp]; exact he)
  have hrn0 : Event.rename ∉ ev0 := by
    intro hmem
    have := hev0 _ hmem
    simp at this
  rcases hm : get_media_with_retry client with ⟨evm, r⟩
  have hrnm : Event.rename ∉ evm := by
    intro hmem
    have := get_media_with_retry_events client Event.rename (by rw [hm]; exact hmem)
    simp at this
  cases r with
  | error p =>
    rcases p with ⟨s, ss⟩
    have heq := download_track_of_media_err hgp hf hm world
    rw [heq]
    by_cases hcond : s = 401 ∧ ss = some 4005
    · rw [if_pos hcond]
      refine ⟨fun hc => by simp at hc, fun _ => ⟨hf, ?_, fun p _ => rfl⟩⟩
      intro hmem
      rcases List.mem_append.mp hmem with h | h
      · exact hrn0 h
      · exact hrnm h
    · rw [if_neg hcond]
      refine ⟨fun hc => by simp at hc, fun _ => ⟨hf, ?_, fun p _ => rfl⟩⟩
      intro hmem
      rcases List.mem_append.mp hmem with h | h
      · exact hrn0 h
      · exact hrnm h
  | ok d =>
    have heq := download_track_of_media_ok hgp hf hm world
    rw [heq]
    have hfin := finishPhase_spec config track world d
      (tempPathOf config parts track.extension)
      (finalPathOf config parts track.extension) fs hne
    constructor
    · intro hc
      obtain ⟨ha, hb, hcc⟩ := hfin.1 hc
      refine ⟨?_, hb, hcc⟩
      rw [List.getLast?_append, ha]
      rfl
    · intro hc
      obtain ⟨ha, hb, hcc⟩ := hfin.2 hc
      refine ⟨ha.trans hf, ?_, fun p hp => hcc p hp⟩
      intro hmem
      rcases List.mem_append.mp hmem with h | h
      · rcases List.mem_append.mp h with h2 | h2
        · exact hrn0 h2
        · exact hrnm h2
      · exact hb h

theorem resolve_metadata_invalid (config : Config) (track : Track) (world : World)
    (hcover : track.album.cover_url = none ∨ world.coverOk = true)
    (hext : track.extension = ("mp4").data ∨ track.extension = ("flac").data)
    (hinv : world.embedInvalid = true) :
    (resolve_metadata config track world).2 = Except.error PyErr.invalidFile := by
  have hembed : ∀ evs, (embedStep track world evs).2 = Except.error PyErr.invalidFile := by
    intro evs
    rw [embedStep, if_pos hext]
    simp [hinv]
  rw [resolve_metadata]
  rcases hcu : track.album.cover_url with _ | u
  · exact hembed []
  · rcases hcover with hc | hc
    · rw [hcu] at hc
      exact absurd hc (by simp)
    · rw [if_pos hc]
      exact hembed [Event.coverFetch]

theorem finishPhase_eq_meta (config : Config) (track : Track) (world : World)
    (d : Bool) (tp fp : Str) (fs : FS)
    (hstream : world.streamOk = true)
    (hdec : d = true → world.decryptOk = true) :
    finishPhase config track world d tp fp fs
      = metaPhase config track world tp fp (setFile fs tp true)
          (if d then
            [Event.makedirs, Event.payloadRequest, Event.writeTemp, Event.decrypt]
          else [Event.makedirs, Event.payloadRequest, Event.writeTemp]) := by
  cases d with
  | false => simp [finishPhase, hstream]
  | true => simp [finishPhase, hstream, hdec rfl]

theorem metaPhase_invalid_eq (config : Config) (track : Track) (world : World)
    (tp fp : Str) (fs : FS) (evs : List Event)
    (hsk : config.skipMetadata = false)
    (hres : (resolve_metadata config track world).2 = Except.error PyErr.invalidFile) :
    metaPhase config track world tp fp fs evs
      = (DResult.skippedInvalidFile, setFile fs tp false,
          evs ++ (resolve_metadata config track world).1 ++ [Event.removeTemp]) := by
  simp [metaPhase, hsk, hres]

theorem metaPhase_skip_eq (config : Config) (track : Track) (world : World)
    (tp fp : Str) (fs : FS) (evs : List Event)
    (hsk : config.skipMetadata = true) :
    metaPhase config track world tp fp fs evs
      = (DResult.completed, setFile (setFile fs tp false) fp true,
          evs ++ [Event.rename]) := by
  simp [metaPhase, hsk]

/-- C6 (explicit): when the embedder reports an invalid file, the
temporary file is deleted, the outcome is a logged skip (not an
exception), the final path is never created, and no path other than the
temporary one changes; the delete is the last effect. -/
theorem download_track_invalid_file_skip (client : Client) (config : Config)
    (track : Track) (siblings : Option (List Track))
    (include_artist include_album : Bool) (world : World) (fs : FS)
    (ev0 : List Event) (parts : Parts) (d : Bool)
    (hgp : get_track_path client config track siblings include_artist include_album
      = (ev0, Except.ok parts))
    (hf : fs (finalPathOf config parts track.extension) = false)
    (hmeta : config.skipMetadata = false)
    (hm : client.getMedia 0 = MediaResult.ok d)
    (hstream : world.streamOk = true)
    (hdec : d = true → world.decryptOk = true)
    (hcover : track.album.cover_url = none ∨ world.coverOk = true)
    (hext : track.extension = ("mp4").data ∨ track.extension = ("flac").data)
    (hinv : world.embedInvalid = true) :
    (download_track client config track siblings include_artist include_album
        world fs).1 = DResult.skippedInvalidFile ∧
    (download_track client config track siblings include_artist include_album
        world fs).2.1 (tempPathOf config parts track.extension) = false ∧
    (download_track client config track siblings include_artist include_album
        world fs).2.1 (finalPathOf config parts track.extension) = false ∧
    (∀ p, p ≠ tempPathOf config parts track.extension →
      (download_track client config track siblings include_artist include_album
          world fs).2.1 p = fs p) ∧
    Event.rename ∉ (download_track client config track siblings include_artist
        include_album world fs).2.2 ∧
    (download_track client config track siblings include_artist include_album
        world fs).2.2.getLast? = some Event.removeTemp := by
  have hne := tempPath_ne_finalPath config parts track.extension
  have hev0 : ∀ e ∈ ev0, e = Event.albumTracksFetch track.album.id := by
    intro e he
    exact get_track_path_events client config track siblings include_artist
      include_album e (by rw [hgp]; exact he)
  have hmr := get_media_with_retry_ok0 hm
  have heq := download_track_of_media_ok hgp hf hmr world
  rw [heq, finishPhase_eq_meta config track world d _ _ fs hstream hdec,
    metaPhase_invalid_eq config track world _ _ _ _ hmeta
      (resolve_metadata_invalid config track world hcover hext hinv)]
  have hrmne : ∀ e0 ∈ (resolve_metadata config track world).1,
      e0 = Event.coverFetch ∨ e0 = Event.embed :=
    resolve_metadata_events config track world
  refine ⟨rfl, by simp [setFile], ?_, fun p hp => by simp [setFile, hp], ?_, ?_⟩
  · have hfp : finalPathOf config parts track.extension
        ≠ tempPathOf config parts track.extension := Ne.symm hne
    simp [setFile, hfp, hf]
  · intro hmem
    rcases List.mem_append.mp hmem with h | h
    · rcases List.mem_append.mp h with h2 | h2
      · have := hev0 _ h2
        simp at this
      · simp at h2
    · rcases List.mem_append.mp h with h2 | h2
      · rcases List.mem_append.mp h2 with h3 | h3
        · cases d <;> simp_all
        · rcases hrmne _ h3 with h4 | h4 <;> simp at h4
      · simp at h2
  · rw [List.getLast?_append, List.getLast?_concat]
    rfl

/-- C9 (implicit): with `skip-metadata` set, `download_track` performs
no cover fetch and no embedder call, and the temporary file is
unconditionally renamed to the final path after streaming (and
decryption when needed) — for every world, including one whose embedder
would have reported the payload invalid. -/
theorem download_track_skip_metadata_finalizes (client : Client) (config : Config)
    (track : Track) (siblings : Option (List Track))
    (include_artist include_album : Bool) (world : World) (fs : FS)
    (ev0 : List Event) (parts : Parts) (d : Bool)
    (hgp : get_track_path client config track siblings include_artist include_album
      = (ev0, Except.ok parts))
    (hf : fs (finalPathOf config parts track.extension) = false)
    (hmeta : config.skipMetadata = true)
    (hm : client.getMedia 0 = MediaResult.ok d)
    (hstream : world.streamOk = true)
    (hdec : d = true → world.decryptOk = true) :
    (download_track client config track siblings include_artist include_album
        world fs).1 = DResult.completed ∧
    (download_track client config track siblings include_artist include_album
        world fs).2.1 (finalPathOf config parts track.extension) = true ∧
    (download_track client config track siblings include_artist include_album
        world fs).2.1 (tempPathOf config parts track.extension) = false ∧
    Event.coverFetch ∉ (download_track client config track siblings include_artist
        include_album world fs).2.2 ∧
    Event.embed ∉ (download_track client config track siblings include_artist
        include_album world fs).2.2 := by
  have hne := tempPath_ne_finalPath config parts track.extension
  have hev0 : ∀ e ∈ ev0, e = Event.albumTracksFetch track.album.id := by
    intro e he
    exact get_track_path_events client config track siblings include_artist
      include_album e (by rw [hgp]; exact he)
  have hmr := get_media_with_retry_ok0 hm
  have heq := download_track_of_media_ok hgp hf hmr world
  rw [heq, finishPhase_eq_meta config track world d _ _ fs hstream hdec,
    metaPhase_skip_eq config track world _ _ _ _ hmeta]
  refine ⟨rfl, by simp [setFile], by simp [setFile, hne], ?_, ?_⟩
  · intro hmem
    rcases List.mem_append.mp hmem with h | h
    · rcases List.mem_append.mp h with h2 | h2
      · have := hev0 _ h2
        simp at this
      · simp at h2
    · rcases List.mem_append.mp h with h2 | h2
      · cases d <;> simp_all
      · simp at h2
  · intro hmem
    rcases List.mem_append.mp hmem with h | h
    · rcases List.mem_append.mp h with h2 | h2
      · have := hev0 _ h2
        simp at this
      · simp at h2
    · rcases List.mem_append.mp h with h2 | h2
      · cases d <;> simp_all
      · simp at h2

theorem albumFragments_artist {config : Config} {track : Track} {sibs : List Track}
    {ap : Str} {parts : Parts}
    (h : albumFragments config track sibs ap = Except.ok parts) : parts.artist = ap := by
  rw [albumFragments] at h
  cases hD : pyMax (sibs.map (fun s => s.disc_number)) with
  | error e =>
    rw [hD] at h
    simp at h
  | ok maxD =>
    rw [hD] at h
    cases hT : pyMax (sibs.map (fun s => s.track_number)) with
    | error e =>
      rw [hT] at h
      simp at h
    | ok maxT =>
      rw [hT] at h
      simp only [Except.ok.injEq] at h
      rw [← h]

theorem get_track_path_body_artist {client : Client} {config : Config} {track : Track}
    {siblings : Option (List Track)} {include_album : Bool} {ap : Str}
    {ev : List Event} {parts : Parts}
    (h : get_track_path_body client config track siblings include_album ap
      = (ev, Except.ok parts)) :
    parts.artist = ap := by
  simp only [get_track_path_body] at h
  by_cases hb : (include_album || config.fullStructure) = true
  · rw [if_pos hb] at h
    exact albumFragments_artist (congrArg Prod.snd h)
  · rw [if_neg hb] at h
    have h2 := congrArg Prod.snd h
    simp only [Except.ok.injEq] at h2
    rw [← h2]

/-- C10 (implicit): whenever the artist segment is included, it is
derived from the first artist of the track's owning album
(`track.album.artists[0]`) — never from the track's own artist list,
whose value is irrelevant — and the lookup raises `IndexError` when the
album has no artists. -/
theorem get_track_path_artist_from_album (client : Client) (config : Config)
    (track : Track) (siblings : Option (List Track))
    (include_artist include_album : Bool)
    (hcond : include_artist = true ∨ config.fullStructure = true) :
    (track.album.artists = [] →
      get_track_path client config track siblings include_artist include_album
        = ([], Except.error PyErr.indexError)) ∧
    (∀ a rest ev parts, track.album.artists = a :: rest →
      get_track_path client config track siblings include_artist include_album
        = (ev, Except.ok parts) →
      parts.artist = sanitize config a.name) ∧
    (∀ l, get_track_path client config { track with artists := l } siblings
        include_artist include_album
      = get_track_path client config track siblings include_artist include_album) := by
  have hgate : (include_artist || config.fullStructure) = true := by
    rcases hcond with h | h <;> simp [h]
  refine ⟨?_, ?_, ?_⟩
  · intro hempty
    rw [get_track_path, if_pos hgate, hempty]
  · intro a rest ev parts hart hres
    rw [get_track_path, if_pos hgate, hart] at hres
    exact get_track_path_body_artist hres
  · intro l
    rfl

theorem download_track_some_no_fetch (client : Client) (config : Config) (t : Track)
    {l : List Track} (hl : l ≠ []) (include_artist include_album : Bool)
    (world : World) (fs : FS) (a : Nat) :
    Event.albumTracksFetch a ∉
      (download_track client config t (some l) include_artist include_album
        world fs).2.2 := by
  intro hmem
  rcases hgp : get_track_path client config t (some l) include_artist include_album
    with ⟨ev0, r⟩
  have hev0 : ev0 = [] := by
    have h0 := get_track_path_some_events client config t hl include_artist include_album
    rw [hgp] at h0
    exact h0
  subst hev0
  cases r with
  | error e =>
    rw [download_track_of_gp_err hgp world fs] at hmem
    simp at hmem
  | ok parts =>
    by_cases hf : fs (finalPathOf config parts t.extension) = true
    · rw [download_track_of_exists hgp hf world] at hmem
      simp at hmem
    · have hf2 : fs (finalPathOf config parts t.extension) = false := by
        simpa using hf
      rcases hm : get_media_with_retry client with ⟨evm, rm⟩
      have hevm : ∀ e ∈ evm, e = Event.getMedia ∨ e = Event.authenticate := by
        intro e he
        exact get_media_with_retry_events client e (by rw [hm]; exact he)
      cases rm with
      | error p =>
        rcases p with ⟨s, ss⟩
        rw [download_track_of_media_err hgp hf2 hm world] at hmem
        by_cases hcond : s = 401 ∧ ss = some 4005
        · rw [if_pos hcond] at hmem
          rcases List.mem_append.mp hmem with h | h
          · simp at h
          · rcases hevm _ h with h2 | h2 <;> simp at h2
        · rw [if_neg hcond] at hmem
          rcases List.mem_append.mp hmem with h | h
          · simp at h
          · rcases hevm _ h with h2 | h2 <;> simp at h2
      | ok d =>
        rw [download_track_of_media_ok hgp hf2 hm world] at hmem
        rcases List.mem_append.mp hmem with h | h
        · rcases List.mem_append.mp h with h2 | h2
          · simp at h2
          · rcases hevm _ h2 with h3 | h3 <;> simp at h3
        · rcases finishPhase_events config t world d _ _ fs _ h with
            h2 | h2 | h2 | h2 | h2 | h2 | h2 | h2 <;> simp at h2

theorem albumLoop_no_fetch (client : Client) (config : Config) (world : World)
    (include_artist : Bool) (tracks : List Track) (hl : tracks ≠ []) (a : Nat) :
    ∀ (l : List (Nat × Track)) (fs : FS),
      Event.albumTracksFetch a
        ∉ (albumLoop client config world include_artist tracks l fs).2.1
  | [], fs => by simp [albumLoop]
  | (i, t) :: rest, fs => by
    have hstep := download_track_some_no_fetch client config t hl include_artist true
      world fs a
    simp only [albumLoop]
    cases hres : (download_track client config t (some tracks) include_artist true
        world fs).1 with
    | fatal e => exact hstep
    | skippedExists =>
      intro hmem
      rcases List.mem_append.mp hmem with h | h
      · exact hstep h
      · exact albumLoop_no_fetch client config world include_artist tracks hl a rest _ h
    | skippedNotAvailable =>
      intro hmem
      rcases List.mem_append.mp hmem with h | h
      · exact hstep h
      · exact albumLoop_no_fetch client config world include_artist tracks hl a rest _ h
    | skippedInvalidFile =>
      intro hmem
      rcases List.mem_append.mp hmem with h | h
      · exact hstep h
      · exact albumLoop_no_fetch client config world include_artist tracks hl a rest _ h
    | completed =>
      intro hmem
      rcases List.mem_append.mp hmem with h | h
      · exact hstep h
      · exact albumLoop_no_fetch client config world include_artist tracks hl a rest _ h

theorem albumLoop_calls (client : Client) (config : Config) (world : World)
    (include_artist : Bool) (tracks : List Track) :
    ∀ (l : List (Nat × Track)) (fs : FS),
      (albumLoop client config world include_artist tracks l fs).2.2.2 = none →
      (albumLoop client config world include_artist tracks l fs).2.2.1.map
          (fun c => (c.index, c.track)) = l
        ∧ ∀ c ∈ (albumLoop client config world include_artist tracks l fs).2.2.1,
            c.siblings = some tracks ∧ c.include_album = true
              ∧ c.include_artist = include_artist
  | [], fs => by simp [albumLoop]
  | (i, t) :: rest, fs => by
    simp only [albumLoop]
    cases hres : (download_track client config t (some tracks) include_artist true
        world fs).1 with
    | fatal e =>
      intro hnone
      simp at hnone
    | skippedExists =>
      intro hnone
      obtain ⟨h1, h2⟩ := albumLoop_calls client config world include_artist tracks rest
        (download_track client config t (some tracks) include_artist true
          world fs).2.1 hnone
      refine ⟨?_, ?_⟩
      · show ((⟨t, some tracks, include_artist, true, i⟩ : Call)
            :: (albumLoop client config world include_artist tracks rest
              (download_track client config t (some tracks) include_artist true
                world fs).2.1).2.2.1).map (fun c => (c.index, c.track))
          = (i, t) :: rest
        rw [List.map_cons, h1]
      · intro c hc
        rcases List.mem_cons.mp hc with h | h
        · subst h
          exact ⟨rfl, rfl, rfl⟩
        · exact h2 c h
    | skippedNotAvailable =>
      intro hnone
      obtain ⟨h1, h2⟩ := albumLoop_calls client config world include_artist tracks rest
        (download_track client config t (some tracks) include_artist true
          world fs).2.1 hnone
      refine ⟨?_, ?_⟩
      · show ((⟨t, some tracks, include_artist, true, i⟩ : Call)
            :: (albumLoop client config world include_artist tracks rest
              (download_track client config t (some tracks) include_artist true
                world fs).2.1).2.2.1).map (fun c => (c.index, c.track))
          = (i, t) :: rest
        rw [List.map_cons, h1]
      · intro c hc
        rcases List.mem_cons.mp hc with h | h
        · subst h
          exact ⟨rfl, rfl, rfl⟩
        · exact h2 c h
    | skippedInvalidFile =>
      intro hnone
      obtain ⟨h1, h2⟩ := albumLoop_calls client config world include_artist tracks rest
        (download_track client config t (some tracks) include_artist true
          world fs).2.1 hnone
      refine ⟨?_, ?_⟩
      · show ((⟨t, some tracks, include_artist, true, i⟩ : Call)
            :: (albumLoop client config world include_artist tracks rest
              (download_track client config t (some tracks) include_artist true
                world fs).2.1).2.2.1).map (fun c => (c.index, c.track))
          = (i, t) :: rest
        rw [List.map_cons, h1]
      · intro c hc
        rcases List.mem_cons.mp hc with h | h
        · subst h
          exact ⟨rfl, rfl, rfl⟩
        · exact h2 c h
    | completed =>
      intro hnone
      obtain ⟨h1, h2⟩ := albumLoop_calls client config world include_artist tracks rest
        (download_track client config t (some tracks) include_artist true
          world fs).2.1 hnone
      refine ⟨?_, ?_⟩
      · show ((⟨t, some tracks, include_artist, true, i⟩ : Call)
            :: (albumLoop client config world include_artist tracks rest
              (download_track client config t (some tracks) include_artist true
                world fs).2.1).2.2.1).map (fun c => (c.index, c.track))
          = (i, t) :: rest
        rw [List.map_cons, h1]
      · intro c hc
        rcases List.mem_cons.mp hc with h | h
        · subst h
          exact ⟨rfl, rfl, rfl⟩
        · exact h2 c h

/-- C8 (explicit): `download_album` fetches the album track list exactly
once; when no track aborts the run fatally, it invokes `download_track`
once per track in exactly the fetched order, with a 1-based position
counter, passing the full fetched list as the sibling list and forcing
album inclusion on. -/
theorem download_album_contract (client : Client) (config : Config) (album : Album)
    (include_artist : Bool) (world : World) (fs : FS) :
    (download_album client config album include_artist world fs).2.1.count
        (Event.albumTracksFetch album.id) = 1 ∧
    ((download_album client config album include_artist world fs).2.2.2 = none →
      (download_album client config album include_artist world fs).2.2.1.map
          (fun c => c.track) = client.albumTracks album
        ∧ (download_album client config album include_artist world fs).2.2.1.map
            (fun c => c.index) = List.range' 1 (client.albumTracks album).length
        ∧ ∀ c ∈ (download_album client config album include_artist world fs).2.2.1,
            c.siblings = some (client.albumTracks album)
              ∧ c.include_album = true ∧ c.include_artist = include_artist) := by
  constructor
  · show (Event.albumTracksFetch album.id
        :: (albumLoop client config world include_artist (client.albumTracks album)
          (List.enumFrom 1 (client.albumTracks album)) fs).2.1).count
        (Event.albumTracksFetch album.id) = 1
    rw [List.count_cons_self]
    rcases heq : client.albumTracks album with _ | ⟨t0, ts⟩
    · rw [show List.enumFrom 1 ([] : List Track) = [] from rfl]
      simp [albumLoop]
    · rw [List.count_eq_zero.mpr (albumLoop_no_fetch client config world include_artist
        (t0 :: ts) (by simp) album.id (List.enumFrom 1 (t0 :: ts)) fs)]
  · intro hnone
    obtain ⟨h1, h2⟩ := albumLoop_calls client config world include_artist
      (client.albumTracks album) (List.enumFrom 1 (client.albumTracks album)) fs hnone
    refine ⟨?_, ?_, h2⟩
    · have := congrArg (List.map Prod.snd) h1
      rw [List.map_map, List.enumFrom_map_snd] at this
      exact this
    · have := congrArg (List.map Prod.fst) h1
      rw [List.map_map, List.enumFrom_map_fst] at this
      exact this

/-- Witness for C1's amended theorem at a concrete input. -/
theorem download_track_skip_exists_witness :
    get_track_path exClientOk exConfig exTrack none false false
      = ([], Except.ok ⟨[], [], [], ['t']⟩) ∧
    exFs (finalPathOf exConfig ⟨[], [], [], ['t']⟩ exTrack.extension) = true ∧
    (download_track exClientOk exConfig exTrack none false false exWorld exFs).1
      = DResult.skippedExists ∧
    (download_track exClientOk exConfig exTrack none false false exWorld exFs).2.1
      = exFs := by
  refine ⟨rfl, by decide, ?_, ?_⟩
  · exact (download_track_skip_exists exClientOk exConfig exTrack none false false
      exWorld exFs [] ⟨[], [], [], ['t']⟩ rfl (by decide)).1
  · exact (download_track_skip_exists exClientOk exConfig exTrack none false false
      exWorld exFs [] ⟨[], [], [], ['t']⟩ rfl (by decide)).2.1

/-- Witness for C3's theorem at a concrete input. -/
theorem download_track_rate_limit_single_retry_witness :
    exFsEmpty (finalPathOf exConfig ⟨[], [], [], ['t']⟩ exTrack.extension) = false ∧
    (download_track exClient429 exConfig exTrack none false false exWorld
        exFsEmpty).1 = DResult.fatal (PyErr.httpError 429 none) ∧
    (download_track exClient429 exConfig exTrack none false false exWorld
        exFsEmpty).2.2.count Event.authenticate = 1 ∧
    (download_track exClient429 exConfig exTrack none false false exWorld
        exFsEmpty).2.2.count Event.getMedia = 2 := by
  have h := download_track_rate_limit_single_retry exClient429 exConfig exTrack none
    false false exWorld exFsEmpty [] ⟨[], [], [], ['t']⟩ none rfl rfl (fun _ => rfl)
  exact ⟨rfl, h.1, h.2.2.1, h.2.2.2⟩

/-- Witness for C4's theorem at a concrete input. -/
theorem download_track_not_entitled_skip_witness :
    exClient4005.getMedia 0 = MediaResult.err 401 (some 4005) ∧
    (download_track exClient4005 exConfig exTrack none false false exWorld
        exFsEmpty).1 = DResult.skippedNotAvailable ∧
    (download_track exClient4005 exConfig exTrack none false false exWorld
        exFsEmpty).2.1 = exFsEmpty := by
  have h := (download_track_not_entitled_skip exClient4005 exConfig exTrack none
    false false exWorld exFsEmpty [] ⟨[], [], [], ['t']⟩ rfl rfl).1 rfl
  exact ⟨rfl, h.1, h.2⟩

/-- Witness for C5's theorem at a concrete input (a run that fails while
streaming leaves nothing at the final path). -/
theorem download_track_finalize_last_witness :
    (download_track exClientOk exConfig exTrack none false false exWorldStreamFail
        exFsEmpty).1 ≠ DResult.completed ∧
    (download_track exClientOk exConfig exTrack none false false exWorldStreamFail
        exFsEmpty).2.1 (finalPathOf exConfig ⟨[], [], [], ['t']⟩ exTrack.extension)
      = false ∧
    Event.rename ∉ (download_track exClientOk exConfig exTrack none false false
        exWorldStreamFail exFsEmpty).2.2 := by
  have h := download_track_finalize_last exClientOk exConfig exTrack none false false
    exWorldStreamFail exFsEmpty [] ⟨[], [], [], ['t']⟩ rfl rfl
  have hne : (download_track exClientOk exConfig exTrack none false false
      exWorldStreamFail exFsEmpty).1 ≠ DResult.completed := by decide
  exact ⟨hne, (h.2 hne).1, (h.2 hne).2.1⟩

/-- Witness for C6's theorem at a concrete input. -/
theorem download_track_invalid_file_skip_witness :
    exConfig.skipMetadata = false ∧
    exWorldInvalid.embedInvalid = true ∧
    (download_track exClientOk exConfig exTrack none false false exWorldInvalid
        exFsEmpty).1 = DResult.skippedInvalidFile ∧
    (download_track exClientOk exConfig exTrack none false false exWorldInvalid
        exFsEmpty).2.1 (tempPathOf exConfig ⟨[], [], [], ['t']⟩ exTrack.extension)
      = false ∧
    Event.rename ∉ (download_track exClientOk exConfig exTrack none false false
        exWorldInvalid exFsEmpty).2.2 := by
  have h := download_track_invalid_file_skip exClientOk exConfig exTrack none false
    false exWorldInvalid exFsEmpty [] ⟨[], [], [], ['t']⟩ false rfl rfl rfl rfl rfl
    (fun _ => rfl) (Or.inl rfl) (Or.inl rfl) rfl
  exact ⟨rfl, rfl, h.1, h.2.1, h.2.2.2.2.1⟩

/-- Witness for C7's theorem at a concrete input: a two-disc album with
track numbers 7 and 12 pads both numerals to two digits. -/
theorem get_track_path_padding_consistent_witness :
    exTrack7 ∈ exSibs ∧ exTrack12 ∈ exSibs ∧
    (paddedNumeral exTrack7.track_number 12).length = (natStr 12).length ∧
    (paddedNumeral exTrack12.track_number 12).length = (natStr 12).length := by
  have h := get_track_path_padding_consistent exClientOk exConfig exSibs exTrack7
    exTrack12 [] [] 2 12 (by decide) (by decide) rfl rfl
  exact ⟨by decide, by decide, h.1, h.2.1⟩

/-- Witness for C8's theorem at a concrete input. -/
theorem download_album_contract_witness :
    (download_album exClientOk exConfig exAlbum false exWorld exFs).2.2.2 = none ∧
    (download_album exClientOk exConfig exAlbum false exWorld exFs).2.1.count
        (Event.albumTracksFetch exAlbum.id) = 1 ∧
    (download_album exClientOk exConfig exAlbum false exWorld exFs).2.2.1.map
        (fun c => c.index) = List.range' 1 1 := by
  have h := download_album_contract exClientOk exConfig exAlbum false exWorld exFs
  have hnone : (download_album exClientOk exConfig exAlbum false exWorld
      exFs).2.2.2 = none := by decide
  exact ⟨hnone, h.1, (h.2 hnone).2.1⟩

/-- Witness for C9's theorem at a concrete input: with `skip-metadata`
set, even a world whose embedder would report an invalid file finalizes
the track. -/
theorem download_track_skip_metadata_finalizes_witness :
    exConfigSkipMeta.skipMetadata = true ∧
    exWorldInvalid.embedInvalid = true ∧
    (download_track exClientOk exConfigSkipMeta exTrack none false false
        exWorldInvalid exFsEmpty).1 = DResult.completed ∧
    Event.embed ∉ (download_track exClientOk exConfigSkipMeta exTrack none false
        false exWorldInvalid exFsEmpty).2.2 := by
  have h := download_track_skip_metadata_finalizes exClientOk exConfigSkipMeta exTrack
    none false false exWorldInvalid exFsEmpty [] ⟨[], [], [], ['t']⟩ false rfl rfl rfl
    rfl rfl (fun _ => rfl)
  exact ⟨rfl, rfl, h.1, h.2.2.2.2⟩

/-- Witness for C10's theorem at a concrete input: an album with no
artists makes the artist lookup fail with `IndexError`. -/
theorem get_track_path_artist_from_album_witness :
    exTrackNoArtists.album.artists = [] ∧
    get_track_path exClientOk exConfig exTrackNoArtists none true false
      = ([], Except.error PyErr.indexError) := by
  have h := get_track_path_artist_from_album exClientOk exConfig exTrackNoArtists
    none true false (Or.inl rfl)
  exact ⟨rfl, h.1 rfl⟩

end Mania
